import Mathlib

/-!
Verification of the issue-detection and fix-application pipeline of the
AI-Analyst-Strategy-Builder repository.

The development shallowly embeds, in Lean, the parts of the source the
claims are about:
  * `app/structural_fixer.py`  (`apply_fix`)           -- deterministic fixer
  * `app/scanner.py`           (`get_fix_strategies`)  -- structural fix menus
  * `app/deep_scanner.py`      (typo / statistical scanners, `aggregate_deep_issues`)
  * `app/agents/janitor.py`    (`run_janitor`)         -- generate/validate retry loop
  * `app/state_manager.py`     (`save_checkpoint` / `restore_checkpoint`)

Polars dataframes are modelled as row lists of optional cells plus a dtype
schema; machine floats are modelled as exact rationals; the two genuinely
external effects (the LLM invocation and the Python `exec` validation step
inside the janitor) are modelled as oracle parameters of the embedding.
-/

/-- A cell value of a dataframe.  Polars Int*/Float* columns are collapsed
into one exact numeric constructor `vNum` (machine floats modelled as `ℚ`);
the column dtype is kept separately in the table schema. -/
inductive Val where
  | vNum (q : ℚ)
  | vStr (s : String)
  | vBool (b : Bool)
  deriving DecidableEq

/-- The polars dtypes the embedded code inspects.  `isNumericCore` mirrors the
literal dtype list `[pl.Int64, pl.Float64, pl.Int32, pl.Float32]` used by
`structural_fixer.apply_fix` and `deep_scanner.scan_statistical_issues`. -/
inductive DType where
  | i64 | i32 | f64 | f32 | str | boolean | date | other
  deriving DecidableEq

def DType.isNumericCore : DType → Bool
  | .i64 | .f64 | .i32 | .f32 => true
  | _ => false

/-- A polars DataFrame: a dtype per column position and a list of rows, each
row a list of nullable cells (`none` = polars null).  Columns are addressed
by position; the Python code addresses them by name, a lookup in the schema
that is immaterial to the claims. -/
structure Table where
  schema : List DType
  rows : List (List (Option Val))
  deriving DecidableEq

def dtypeAt (t : Table) (c : Nat) : DType := (t.schema.drop c).headD .other

def getCell (r : List (Option Val)) (c : Nat) : Option Val :=
  ((r.drop c).headD none)

def Table.getCol (t : Table) (c : Nat) : List (Option Val) :=
  t.rows.map (fun r => getCell r c)

/-- `with_columns` with a per-cell expression on column `c`. -/
def mapColumnCells (t : Table) (c : Nat) (f : Option Val → Option Val) : Table :=
  ⟨t.schema, t.rows.map (fun r => r.set c (f (getCell r c)))⟩

/-- `fill_null(v)` on column `c` (`v = none` models `fill_null(None)`: nulls stay). -/
def fillNullWith (t : Table) (c : Nat) (v : Option Val) : Table :=
  mapColumnCells t c (fun x => match x with | none => v | some w => some w)

/-- Whether `pat` occurs at the start of `l` (char-list prefix test). -/
def startsL : List Char → List Char → Bool
  | _, [] => true
  | [], _ :: _ => false
  | a :: as1, b :: bs1 => a = b && startsL as1 bs1

/-- Whether `pat` occurs somewhere inside `l`. -/
def containsSub : List Char → List Char → Bool
  | [], pat => pat.isEmpty
  | a :: rest, pat => startsL (a :: rest) pat || containsSub rest pat

/-- Python's `pat in s` substring test. -/
def strContains (s pat : String) : Bool := containsSub s.data pat.data

/-- The numeric non-null values of a column, in row order
(polars aggregations such as mean/median/quantile ignore nulls). -/
def numsOf (cells : List (Option Val)) : List ℚ :=
  cells.filterMap (fun x => match x with | some (.vNum q) => some q | _ => none)

/-- Insertion into a weakly-sorted rational list. -/
def insertSorted (x : ℚ) : List ℚ → List ℚ
  | [] => [x]
  | y :: ys => if x ≤ y then x :: y :: ys else y :: insertSorted x ys

/-- Insertion sort (ascending) for rationals. -/
def sortQ : List ℚ → List ℚ
  | [] => []
  | x :: xs => insertSorted x (sortQ xs)

/-- `Series.mean`: arithmetic mean of the non-null values, `None` when there
are none. -/
def meanCol (t : Table) (c : Nat) : Option Val :=
  let qs := numsOf (t.getCol c)
  match qs with
  | [] => none
  | _ => some (.vNum (qs.sum / qs.length))

/-- `Series.median`: linear-interpolation median of the non-null values
(average of the two middle values at even length), `None` when there are none. -/
def medianCol (t : Table) (c : Nat) : Option Val :=
  let qs := sortQ (numsOf (t.getCol c))
  if qs.length = 0 then none
  else if qs.length % 2 = 1 then
    some (.vNum ((qs.drop (qs.length / 2)).headD 0))
  else
    some (.vNum ((((qs.drop (qs.length / 2 - 1)).headD 0)
      + ((qs.drop (qs.length / 2)).headD 0)) / 2))

/-- First-occurrence list of `(value, count)` pairs of a list
(the contents of `Series.value_counts`, whose physical order the claims
never depend on). -/
def valueCounts {α : Type} [DecidableEq α] (xs : List α) : List (α × Nat) :=
  (xs.foldl (fun acc x => if x ∈ acc then acc else acc ++ [x]) []).map
    (fun v => (v, xs.count v))

/-- `Series.mode` of the non-null values followed by `.item(0)`: a value of
maximal multiplicity (ties broken by first occurrence, the order polars
leaves unspecified), `None` when the column has no non-null value. -/
def modeCol (t : Table) (c : Nat) : Option Val :=
  let vc := valueCounts ((t.getCol c).filterMap id)
  (vc.foldl (fun best p =>
    match best with
    | none => some p
    | some q => if p.2 > q.2 then some p else some q) none).map Prod.fst

/-- Kleene test `pl.col(c) < 0`: null compares to null, which the
`when`/`filter` contexts treat as false. -/
def cellLtZero : Option Val → Bool
  | some (.vNum q) => decide (q < 0)
  | _ => false

/-- The filter mask `(pl.col(c) >= 0) | pl.col(c).is_null()` of the
"Drop Rows (Negatives)" fix: a null cell satisfies `is_null`, a numeric cell
must be ≥ 0.  (On a non-numeric column polars would raise; such columns are
outside every claim about this fix.) -/
def keepNonNegOrNull : Option Val → Bool
  | none => true
  | some (.vNum q) => decide (0 ≤ q)
  | some _ => false

/-- `abs` on a cell (identity on null; non-numeric cells are outside the
claims' scope). -/
def absCell : Option Val → Option Val
  | some (.vNum q) => some (.vNum |q|)
  | x => x

/-- Forward fill with a carry: each null takes the last non-null value seen
above it. -/
def ffillFrom (carry : Option Val) : List (Option Val) → List (Option Val)
  | [] => []
  | none :: rest => carry :: ffillFrom carry rest
  | some v :: rest => some v :: ffillFrom (some v) rest

def forwardFillCol (cells : List (Option Val)) : List (Option Val) :=
  ffillFrom none cells

def backwardFillCol (cells : List (Option Val)) : List (Option Val) :=
  (ffillFrom none cells.reverse).reverse

/-- Replace column `c` wholesale (used by the fill strategies that act on the
whole column at once). -/
def setColTo (t : Table) (c : Nat) (vs : List (Option Val)) : Table :=
  ⟨t.schema, t.rows.zipWith (fun r v => r.set c v) vs⟩

/-- First-occurrence deduplication with an accumulator of already-seen rows.
This is the executable REPRESENTATIVE the embedding picks for
`df.unique()` / `df.unique(keep='first')`: with polars' default
`maintain_order=False` the library guarantees only `uniqueContract` below
(one occurrence of each distinct row, output order unspecified), and no
claim theorem relies on this representative's order. -/
def dedupFirstAux {α : Type} [DecidableEq α] (seen : List α) : List α → List α
  | [] => []
  | r :: rs => if r ∈ seen then dedupFirstAux seen rs
               else r :: dedupFirstAux (r :: seen) rs

def dedupFirst {α : Type} [DecidableEq α] (xs : List α) : List α :=
  dedupFirstAux [] xs

/-- The executable representative for `df.unique(keep='last')` (the
deduplicated reversal); as for `dedupFirst`, polars guarantees only
`uniqueContract`, and no claim theorem relies on this representative's
order. -/
def dedupLast {α : Type} [DecidableEq α] (xs : List α) : List α :=
  (dedupFirst xs.reverse).reverse

/-- The textbook fold keeping the first occurrence of each distinct element
in original order — what the spec's "Keep First" sentence would require,
used to exhibit that polars' contract does not force it. -/
def firstOccurrences {α : Type} [DecidableEq α] (xs : List α) : List α :=
  xs.foldl (fun acc r => if r ∈ acc then acc else acc ++ [r]) []

/-- Everything `df.unique(...)` guarantees about its output under polars'
default `maintain_order=False`: a duplicate-free list holding exactly the
input's distinct rows.  Since rows are compared whole, which occurrence of
equal rows survives is value-indistinguishable, so `keep='first'` /
`keep='last'` add nothing observable to this contract. -/
def uniqueContract {α : Type} (xs ys : List α) : Prop :=
  ys.Nodup ∧ ∀ a, a ∈ ys ↔ a ∈ xs

/-- Decimal parsing backing Python's `float(custom_val)` on the strings the
UI passes (optional sign, digits, optional fractional part); any other shape
models the `except: pass` branch by `none`. -/
def parseDecimal (s : String) : Option ℚ :=
  let t := s.trim
  let (sign, body) : ℚ × String :=
    if t.startsWith "-" then (-1, t.drop 1)
    else if t.startsWith "+" then (1, t.drop 1) else (1, t)
  let parts := body.splitOn "."
  let digits? (u : String) : Option (List Nat) :=
    if u.data.all Char.isDigit then some (u.data.map (fun ch => ch.toNat - 48))
    else none
  let natOf (ds : List Nat) : Nat := ds.foldl (fun a d => a * 10 + d) 0
  match parts with
  | [ip] =>
    match digits? ip with
    | some ds => if ds.isEmpty then none else some (sign * natOf ds)
    | none => none
  | [ip, fp] =>
    match digits? ip, digits? fp with
    | some ds, some fs =>
      if ds.isEmpty ∧ fs.isEmpty then none
      else some (sign * ((natOf ds : ℚ) + (natOf fs : ℚ) / ((10 : ℚ) ^ fs.length)))
    | _, _ => none
  | _ => none

/-- The numeric coercion `apply_fix` performs on the custom value of
"Fill with Custom Value" when the target column dtype is one of
Int64/Float64/Int32/Float32: `float(custom_val)` (strings parsed, booleans
numerified, failures silently kept as-is).  The further `int(...)` step for
integral floats is invisible in the single `vNum` numeric model. -/
def coerceCustom (dt : DType) (v : Option Val) : Option Val :=
  if dt.isNumericCore then
    match v with
    | some (.vStr s) =>
      match parseDecimal s with
      | some q => some (.vNum q)
      | none => v
    | some (.vBool b) => some (.vNum (if b then 1 else 0))
    | _ => v
  else v

/-- Shallow embedding of `structural_fixer.apply_fix(df, fix_type, column,
custom_val)`: the dispatch chain is transcribed branch for branch, in source
order, including the substring-based `"Forward Fill" in fix_type` /
`"Backward Fill" in fix_type` conditions and the final catch-all `return df`. -/
def apply_fix (df : Table) (fix_type : String) (column : Nat) (custom_val : Option Val) :
    Table :=
  if fix_type = "Fill with Custom Value" then
    fillNullWith df column (coerceCustom (dtypeAt df column) custom_val)
  else if fix_type = "Replace Negatives with Custom Value" then
    let cv := coerceCustom (dtypeAt df column) custom_val
    mapColumnCells df column (fun x => if cellLtZero x then cv else x)
  else if fix_type = "Fill with Median" then
    fillNullWith df column (medianCol df column)
  else if fix_type = "Fill with Mean" then
    fillNullWith df column (meanCol df column)
  else if fix_type = "Fill with Mode" then
    match modeCol df column with
    | some m => fillNullWith df column (some m)
    | none => df
  else if fix_type = "Fill with 0" then
    fillNullWith df column (some (.vNum 0))
  else if fix_type = "Fill with -1" then
    fillNullWith df column (some (.vNum (-1)))
  else if fix_type = "Fill with 'Unknown'" then
    fillNullWith df column (some (.vStr "Unknown"))
  else if fix_type = "Fill with 'Missing'" then
    fillNullWith df column (some (.vStr "Missing"))
  else if fix_type = "Forward Fill" ∨ strContains fix_type "Forward Fill" = true then
    setColTo df column (forwardFillCol (df.getCol column))
  else if fix_type = "Backward Fill" ∨ strContains fix_type "Backward Fill" = true then
    setColTo df column (backwardFillCol (df.getCol column))
  else if fix_type = "Drop Rows (Nulls)" then
    ⟨df.schema, df.rows.filter (fun r => (getCell r column).isSome)⟩
  else if fix_type = "Convert to Absolute" then
    mapColumnCells df column absCell
  else if fix_type = "Replace with 0" ∨ fix_type = "Set Negatives to 0" then
    mapColumnCells df column (fun x => if cellLtZero x then some (.vNum 0) else x)
  else if fix_type = "Replace with Mean" then
    let m := meanCol df column
    mapColumnCells df column (fun x => if cellLtZero x then m else x)
  else if fix_type = "Drop Rows (Negatives)" then
    ⟨df.schema, df.rows.filter (fun r => keepNonNegOrNull (getCell r column))⟩
  else if fix_type = "Remove Duplicates" then
    ⟨df.schema, dedupFirst df.rows⟩  -- representative of df.unique(), see uniqueContract
  else if fix_type = "Keep First" then
    ⟨df.schema, dedupFirst df.rows⟩
  else if fix_type = "Keep Last" then
    ⟨df.schema, dedupLast df.rows⟩
  else df

/-- The exact-match strategy names of `apply_fix`'s dispatch chain. -/
def knownExactFixes : List String :=
  ["Fill with Custom Value", "Replace Negatives with Custom Value",
   "Fill with Median", "Fill with Mean", "Fill with Mode",
   "Fill with 0", "Fill with -1", "Fill with 'Unknown'", "Fill with 'Missing'",
   "Forward Fill", "Backward Fill", "Drop Rows (Nulls)",
   "Convert to Absolute", "Replace with 0", "Set Negatives to 0",
   "Replace with Mean", "Drop Rows (Negatives)",
   "Remove Duplicates", "Keep First", "Keep Last"]

/-- A strategy name some branch of `apply_fix` matches: one of the exact
names, or any name containing "Forward Fill" or "Backward Fill" as a
substring. -/
def recognizedFix (s : String) : Bool :=
  decide (s ∈ knownExactFixes)
    || strContains s "Forward Fill" || strContains s "Backward Fill"

/-- Shallow embedding of `scanner.get_fix_strategies(issue_type, dtype)`:
the dtype-specific fix menus attached to structural issues.  `is_numeric`
stands for `dtype.is_numeric()` (the int/float dtypes of the model). -/
def get_fix_strategies (issue_type : String) (dtype : DType) : List String :=
  let is_numeric := dtype.isNumericCore
  let is_string := dtype = DType.str
  let is_bool := dtype = DType.boolean
  let is_date := dtype = DType.date
  if issue_type = "Missing Values" then
    if is_numeric then
      ["Fill with Median", "Fill with Mean", "Fill with Mode",
       "Fill with 0", "Fill with -1", "Forward Fill", "Drop Rows"]
    else if is_string then
      ["Fill with 'Unknown'", "Fill with 'Missing'", "Fill with Mode",
       "Forward Fill", "Drop Rows"]
    else if is_bool then
      ["Fill with False", "Fill with True", "Fill with Mode",
       "Forward Fill", "Drop Rows"]
    else if is_date then
      ["Forward Fill", "Backward Fill", "Drop Rows"]
    else
      ["Drop Rows"]
  else if issue_type = "Duplicate Rows" then
    ["Remove Duplicates", "Keep First", "Keep Last"]
  else if issue_type = "Negative Values" then
    if is_numeric then
      ["Convert to Absolute", "Replace with 0", "Replace with Mean", "Drop Rows"]
    else []
  else []

/-- The number of nulls column `c` holds. -/
def nullCountAt (t : Table) (c : Nat) : Nat :=
  (t.getCol c).countP (fun x => x.isNone)

/-!  ## The janitor's generate/validate retry loop (`agents/janitor.py`)

`run_janitor` builds prompts, then loops up to `max_retries = 3` times:
invoke the coding model (a connection-level exception returns an error
sentinel at once), extract code from the reply, validate it by executing it
and checking that `clean_data` got defined (an exception or a missing entry
point records the error text and retries), and return the code on success.
The two external effects are oracle parameters: `invoke i` is the model's
reply on attempt `i` (`Except.error` = the call raised), and `validate code`
is the outcome of the `exec`-based check (`none` = valid, `some e` = the
error text raised or the missing-entry-point message). -/
structure JanitorModel where
  invoke : Nat → Except String String
  validate : String → Option String

/-- Python's `str.strip()` on the whitespace the model covers (space, tab,
newline, carriage return), written structurally over the char list. -/
def pyStrip (s : String) : String :=
  let ws := fun ch : Char => ch = ' ' || ch = '\t' || ch = '\n' || ch = '\r'
  ⟨((s.data.dropWhile ws).reverse.dropWhile ws).reverse⟩

/-- Split at the first occurrence of `pat`: the text before it and the text
after it, `none` when `pat` does not occur. -/
def breakOnSub (pat : List Char) : List Char → Option (List Char × List Char)
  | [] => if pat = [] then some ([], []) else none
  | c :: rest =>
    if startsL (c :: rest) pat = true then
      some ([], List.drop (pat.length - 1) rest)
    else (breakOnSub pat rest).map (fun pr => (c :: pr.1, pr.2))

/-- Python's `str.replace(pat, "")`: delete every (non-overlapping,
left-to-right) occurrence of `pat`.  The fuel, instantiated with the text
length plus one, keeps the recursion structural. -/
def removeSub (pat : List Char) : Nat → List Char → List Char
  | 0, l => l
  | _ + 1, [] => []
  | fuel + 1, c :: rest =>
    if pat ≠ [] ∧ startsL (c :: rest) pat = true then
      removeSub pat fuel (List.drop (pat.length - 1) rest)
    else c :: removeSub pat fuel rest

/-- `re.search(r"```python(.*?)```", raw, re.DOTALL)`: the (stripped) text
between the first "```python" fence and the next "```" after it; when no
such fenced block exists, the fallback deletes every "```" from the whole
reply and strips it (`raw.replace("```", "").strip()`). -/
def extract_code (raw : String) : String :=
  let d := raw.data
  let fallback := pyStrip ⟨removeSub ("```".data) (d.length + 1) d⟩
  match breakOnSub ("```python".data) d with
  | none => fallback
  | some (_, after1) =>
    match breakOnSub ("```".data) after1 with
    | none => fallback
    | some (code, _) => pyStrip ⟨code⟩

def connSentinel (e : String) : String := "# Error: LLM connection failed. " ++ e

def exhaustSentinel (e : String) : String :=
  "# Error: Failed to generate valid code after 3 attempts.\n# Last Error: " ++ e

/-- The retry loop of `run_janitor`: `fuel` attempts remain, `made` model
invocations have been made, `lastError` is the error of the previous
attempt.  Returns the function's string result paired with the total number
of model invocations performed. -/
def janitorLoop (m : JanitorModel) : Nat → Nat → String → String × Nat
  | 0, made, lastError => (exhaustSentinel lastError, made)
  | fuel + 1, made, _lastError =>
    match m.invoke made with
    | .error e => (connSentinel e, made + 1)
    | .ok raw =>
      let code := extract_code raw
      match m.validate code with
      | none => (code, made + 1)
      | some err => janitorLoop m fuel (made + 1) err

/-- Shallow embedding of `run_janitor` (the prompt strings do not influence
the claims; `max_retries = 3`).  The second component counts model
invocations. -/
def run_janitor (m : JanitorModel) : String × Nat := janitorLoop m 3 0 ""

/-!  ## The vocabulary scanner's typo detection (`deep_scanner.py`, section D)

`rapidfuzz.fuzz.ratio` is the normalized InDel similarity
`100 * (1 - dist/(len a + len b))` with `dist = len a + len b - 2 * lcs`,
i.e. `200 * lcs / (len a + len b)`; scores are modelled as exact rationals.
The longest-common-subsequence length recurses on a fuel bounded by the
summed lengths, which keeps it structurally recursive (kernel-evaluable). -/
def lcsFuel : Nat → List Char → List Char → Nat
  | 0, _, _ => 0
  | _ + 1, [], _ => 0
  | _ + 1, _ :: _, [] => 0
  | fuel + 1, a :: as1, b :: bs1 =>
    if a = b then lcsFuel fuel as1 bs1 + 1
    else max (lcsFuel fuel (a :: as1) bs1) (lcsFuel fuel as1 (b :: bs1))

def lcsLen (a b : List Char) : Nat := lcsFuel (a.length + b.length) a b

/-- `fuzz.ratio` (both strings empty scores 100, as in rapidfuzz). -/
def fuzzRatio (a b : String) : ℚ :=
  if a.length + b.length = 0 then 100
  else 200 * (lcsLen a.data b.data : ℚ) / ((a.length : ℚ) + (b.length : ℚ))

/-- `rapidfuzz.process.extractOne(r, common, scorer=fuzz.ratio)`:
the best-scoring choice (first one on ties), `none` iff `common` is empty. -/
def bestMatch (r : String) (common : List String) : Option (String × ℚ) :=
  common.foldl (fun best c =>
    match best with
    | none => some (c, fuzzRatio r c)
    | some (bc, bs) =>
      if fuzzRatio r c > bs then some (c, fuzzRatio r c) else some (bc, bs)) none

/-- Shallow embedding of the typo-detection part of
`scan_vocabulary_issues` for one string column (`cells` are the column's
cells, whose length is the table height).  Mirrors the source: the
cardinality gate `2 < n_unique < 500` (`n_unique` counts null as a value),
the 1% rarity cutoff `max(1, total_rows * 0.01)` on `value_counts` of the
non-null values, the skip of blank rare values (`if not r.strip(): continue`),
the skip when no common value exists, and the `85 <= score < 100` band.
A reported pair `(r, bm)` stands for the source's formatted entry
`'r' -> 'bm'` appended to `typos`. -/
def rareCutoff (cells : List (Option String)) : ℚ :=
  max 1 ((cells.length : ℚ) / 100)

/-- The distinct values of frequency strictly above the rarity cutoff. -/
def commonOf (cells : List (Option String)) : List String :=
  ((valueCounts (cells.filterMap id)).filter
    (fun p => (p.2 : ℚ) > rareCutoff cells)).map Prod.fst

/-- The distinct values of frequency at or below the rarity cutoff. -/
def rareOf (cells : List (Option String)) : List String :=
  ((valueCounts (cells.filterMap id)).filter
    (fun p => (p.2 : ℚ) ≤ rareCutoff cells)).map Prod.fst

/-- The loop body over one rare value: skip blank values (`if not r.strip():
continue`), skip when no common value exists, otherwise report the pair when
the best score falls in the band `85 <= score < 100`. -/
def typoCheck (common : List String) (r : String) : Option (String × String) :=
  if pyStrip r = "" then none
  else
    match bestMatch r common with
    | none => none
    | some (bm, score) =>
      if 85 ≤ score ∧ score < 100 then some (r, bm) else none

def scan_typos_column (cells : List (Option String)) : List (String × String) :=
  let nUnique := (dedupFirst cells).length
  if 2 < nUnique ∧ nUnique < 500 then
    (rareOf cells).filterMap (typoCheck (commonOf cells))
  else []

/-!  ## The statistical scanner's IQR outlier detection (`deep_scanner.py`) -/

/-- `Series.quantile(p)` with polars' default interpolation `nearest`:
sort the non-null values, take the entry at index `round(p * (n - 1))`
(round half away from zero; the index is nonnegative here), `None` for an
empty series. -/
def quantileNearest (qs : List ℚ) (p : ℚ) : Option ℚ :=
  let sorted := sortQ qs
  if sorted.length = 0 then none
  else
    some ((sorted.drop (Int.toNat (p * ((sorted.length : ℚ) - 1) + 1/2).floor)).headD 0)

/-- One issue record of `scan_statistical_issues` (`type`, `column`, `count`,
`examples = head 3`, `suggestion`). -/
structure StatIssue where
  itype : String
  column : Nat
  count : Nat
  examples : List ℚ
  suggestion : String
  deriving DecidableEq

/-- The cells of a column strictly outside the IQR envelope `[lb, ub]`
(a null cell passes neither filter arm, so it is never flagged). -/
def outlierVals (cells : List (Option Val)) (lowerBound upperBound : ℚ) : List ℚ :=
  cells.filterMap (fun x =>
    match x with
    | some (.vNum q) => if q < lowerBound ∨ q > upperBound then some q else none
    | _ => none)

/-- The loop body of section A of `scan_statistical_issues` for one column. -/
def statIssueFor (df : Table) (c : Nat) : Option StatIssue :=
  if (dtypeAt df c).isNumericCore = false then none
  else if (dedupFirst (df.getCol c)).length < 5 then none
  else
    match quantileNearest (numsOf (df.getCol c)) (1/4),
          quantileNearest (numsOf (df.getCol c)) (3/4) with
    | some q1, some q3 =>
      if (outlierVals (df.getCol c) (q1 - (3/2) * (q3 - q1))
            (q3 + (3/2) * (q3 - q1))).length > 0 then
        some ⟨"Statistical Outliers (IQR)", c,
              (outlierVals (df.getCol c) (q1 - (3/2) * (q3 - q1))
                (q3 + (3/2) * (q3 - q1))).length,
              (outlierVals (df.getCol c) (q1 - (3/2) * (q3 - q1))
                (q3 + (3/2) * (q3 - q1))).take 3,
              "Cap values (Winsorize) or Drop rows"⟩
      else none
    | _, _ => none

/-- Shallow embedding of the numeric-outlier part (section A) of
`scan_statistical_issues`: for every column of dtype Int64/Float64/Int32/
Float32, skip it when `n_unique < 5` (null counts as a value, as in polars),
compute Q1 and Q3 of the non-null values, and when both exist flag the rows
strictly below `Q1 - 1.5*IQR` or strictly above `Q3 + 1.5*IQR`, emitting an
issue iff some row is flagged.  The date-range part (section B) concerns no
claim and operates on date columns only. -/
def scan_statistical_numeric (df : Table) : List StatIssue :=
  (List.range df.schema.length).filterMap (statIssueFor df)

/-!  ## The semantic scanner's aggregation (`deep_scanner.aggregate_deep_issues`) -/

/-- A raw semantic finding as the aggregator receives it: a JSON object whose
fields may be absent (`none`).  `column`/`colK` model the keys `column`/`Col`
of the fallback chain `err.get('column') or err.get('Col') or 'Unknown'`, and
likewise for `issue`/`Issue` and `row_index`/`Row`. -/
structure RawFinding where
  column : Option String
  colK : Option String
  issue : Option String
  issueK : Option String
  row_index : Option Int
  rowK : Option Int
  deriving DecidableEq

/-- A recorded row reference: a row index, or the placeholder the source
writes as the string containing one question mark. -/
inductive RowRef where
  | idx (n : Int)
  | unk
  deriving DecidableEq

/-- Python-truthiness fallback for strings: an absent key and the empty
string are both falsy. -/
def orTruthyStr (a b : Option String) (dflt : String) : String :=
  match a with
  | some s => if s = "" then (match b with
      | some u => if u = "" then dflt else u
      | none => dflt) else s
  | none => match b with
    | some u => if u = "" then dflt else u
    | none => dflt

def effCol (e : RawFinding) : String := orTruthyStr e.column e.colK "Unknown"

def effIssue (e : RawFinding) : String := orTruthyStr e.issue e.issueK "Logic Error"

/-- `err.get('row_index') or err.get('Row') or '?'`: an absent key and the
integer 0 are falsy, so a finding at row 0 degrades to the placeholder. -/
def rowRef (e : RawFinding) : RowRef :=
  match e.row_index with
  | some n => if n = 0 then (match e.rowK with
      | some m => if m = 0 then .unk else .idx m
      | none => .unk) else .idx n
  | none => match e.rowK with
    | some m => if m = 0 then .unk else .idx m
    | none => .unk

/-- One aggregated semantic finding (`type` is the constant
"Logic Paradox"). -/
structure AggFinding where
  column : String
  issue : String
  count : Nat
  rows : List RowRef
  ftype : String
  deriving DecidableEq

/-- The dictionary key `f"{col}: {issue}"` of a group. -/
def aggKey (g : AggFinding) : String := g.column ++ ": " ++ g.issue

/-- The composite key a raw finding is grouped under. -/
def aggKeyOf (e : RawFinding) : String := effCol e ++ ": " ++ effIssue e

/-- `grouped[key]["count"] += 1` and the capped `rows.append`: increment the
count and append the row reference while fewer than 5 are kept. -/
def bumpGroup (g : AggFinding) (r : RowRef) : AggFinding :=
  { g with count := g.count + 1,
           rows := if g.rows.length < 5 then g.rows ++ [r] else g.rows }

/-- Processing one raw finding: look the composite key up in the insertion-
ordered group list, create an empty group for a new key, then increment the
count and append the row reference while fewer than 5 are kept. -/
def aggStep (acc : List AggFinding) (e : RawFinding) : List AggFinding :=
  let key := aggKeyOf e
  if acc.any (fun g => decide (aggKey g = key)) then
    acc.map (fun g => if aggKey g = key then bumpGroup g (rowRef e) else g)
  else acc ++ [⟨effCol e, effIssue e, 1, [rowRef e], "Logic Paradox"⟩]

/-- Shallow embedding of `aggregate_deep_issues(raw_issues)`: fold the raw
findings into a dict keyed by `f"{col}: {issue}"` and return its values in
insertion order. -/
def aggregate_deep_issues (raws : List RawFinding) : List AggFinding :=
  raws.foldl aggStep []

/-!  ## The checkpoint ledger (`state_manager.py`)

The streamlit session dictionary is modelled as a record; the issue lists
(`list(...)` copies in the source, value copies here) carry an arbitrary
entry type `ι`, and the ignored-issue registry (a Python set of
`(column, type)` pairs) is a `Finset`. -/
structure Snapshot (ι : Type) where
  timestamp : String
  df : Table
  uploaded_file : Option Nat
  summary : String
  details : Option String
  category : String
  sub_category : Option String
  changeset : Option String
  stage_state : String
  schema_locked : Bool
  header_idx : Nat
  fast_issues : List ι
  vocab_issues : List ι
  stat_issues : List ι
  deep_issues : List ι
  ignored_issues : Finset (String × String)
  fast_count_start : Nat
  deep_count_start : Nat
  deriving DecidableEq

structure SessionState (ι : Type) where
  uploaded_file : Option Nat
  df : Option Table
  history : List (Snapshot ι)
  schema_locked : Bool
  app_stage : String
  fast_issues : List ι
  vocab_issues : List ι
  stat_issues : List ι
  deep_issues : List ι
  ignored_issues : Finset (String × String)
  fast_count_start : Nat
  deep_count_start : Nat
  header_idx : Nat
  deriving DecidableEq

/-- Shallow embedding of `save_checkpoint`: a no-op when no table is loaded
or when the last history entry repeats the same summary and details
(duplicate prevention); otherwise append a snapshot of the table and of all
derived state.  `ts` stands for the `datetime.now()` timestamp string. -/
def save_checkpoint {ι : Type} (s : SessionState ι) (ts : String)
    (action_summary : String) (details : Option String) (category : String)
    (sub_category : Option String) (changeset : Option String) : SessionState ι :=
  match s.df with
  | none => s
  | some t =>
    if (s.history.getLast?).elim false
        (fun last => last.summary = action_summary && last.details = details) = true then s
    else
      { s with history := s.history ++
          [⟨ts, t, s.uploaded_file, action_summary, details, category, sub_category,
            changeset, s.app_stage, s.schema_locked, s.header_idx,
            s.fast_issues, s.vocab_issues, s.stat_issues, s.deep_issues,
            s.ignored_issues, s.fast_count_start, s.deep_count_start⟩] }

/-- Shallow embedding of `restore_checkpoint(index)`: overwrite the session
with the snapshot's captured values (the file handle is restored only when
the snapshot holds one) and truncate the history to `[:index+1]`.  The Python
code raises on an out-of-range index; the model returns the state unchanged
there, and every theorem about it supplies an in-range index. -/
def restore_checkpoint {ι : Type} (s : SessionState ι) (index : Nat) : SessionState ι :=
  match (s.history.drop index).head? with
  | none => s
  | some snap =>
    { uploaded_file := match snap.uploaded_file with
        | some f => some f
        | none => s.uploaded_file,
      df := some snap.df,
      history := s.history.take (index + 1),
      schema_locked := snap.schema_locked,
      app_stage := snap.stage_state,
      fast_issues := snap.fast_issues,
      vocab_issues := snap.vocab_issues,
      stat_issues := snap.stat_issues,
      deep_issues := snap.deep_issues,
      ignored_issues := snap.ignored_issues,
      fast_count_start := snap.fast_count_start,
      deep_count_start := snap.deep_count_start,
      header_idx := snap.header_idx }

/-!  ## Concrete tables and inputs used by witnesses and counterexamples -/

/-- A one-column Int64 table with the values 1..9 and 100 (the spec's IQR
boundary example). -/
def dfIQR : Table :=
  ⟨[.i64], ([1, 2, 3, 4, 5, 6, 7, 8, 9, 100] : List ℚ).map (fun q => [some (.vNum q)])⟩

/-- A one-column Int64 table holding -1, null, 2. -/
def dfNegNull : Table := ⟨[.i64], [[some (.vNum (-1))], [none], [some (.vNum 2)]]⟩

/-- Three pairwise distinct rows A, B, C. -/
def rowA : List (Option Val) := [some (.vNum 1), some (.vStr "a")]

def rowB : List (Option Val) := [some (.vNum 2), none]

def rowC : List (Option Val) := [some (.vNum 3), some (.vStr "c")]

/-- The duplicate-fix example table with rows [A, B, A, C, B]. -/
def dfDupEx : Table := ⟨[.i64, .str], [rowA, rowB, rowA, rowC, rowB]⟩

/-- A 200-row string column: 190 copies of an 11-space value, one 9-space
value, 9 copies of "ab".  The rarity cutoff is max(1, 200/100) = 2, so the
9-space value is rare, the other two are common; the best fuzzy match of the
9-space value is the 11-space value at score 200·9/20 = 90. -/
def exCellsBlank : List (Option String) :=
  List.replicate 190 (some "           ") ++ [some "         "]
    ++ List.replicate 9 (some "ab")

/-- A 10-row string column: two copies of a 23-character value, one
17-character prefix of it, 7 copies of "zz".  The prefix is rare and its
best fuzzy match scores exactly 200·17/40 = 85. -/
def exCells85 : List (Option String) :=
  List.replicate 2 (some "abcdefghijklmnopqrstuvw") ++ [some "abcdefghijklmnopq"]
    ++ List.replicate 7 (some "zz")

/-- Two raw findings whose distinct (column, issue) pairs collide on the
composite dictionary key "a: b: c". -/
def rawsCollision : List RawFinding :=
  [⟨some "a: b", none, some "c", none, some 1, none⟩,
   ⟨some "a", none, some "b: c", none, some 2, none⟩]

/-- Two raw findings whose columns "" and "Unknown" — distinct exact pairs —
are both normalized to the column "Unknown" by the Python falsy fallback
`err.get('column') or 'Unknown'`. -/
def rawsEmptyCol : List RawFinding :=
  [⟨some "", none, some "imp", none, some 1, none⟩,
   ⟨some "Unknown", none, some "imp", none, some 2, none⟩]

/-- Two raw findings whose issues "" and "Logic Error" — distinct exact
pairs — are both normalized to the issue "Logic Error" by the falsy fallback
`err.get('issue') or 'Logic Error'`. -/
def rawsEmptyIssue : List RawFinding :=
  [⟨some "Age", none, some "", none, some 1, none⟩,
   ⟨some "Age", none, some "Logic Error", none, some 2, none⟩]

/-- One raw finding at row index 0, which the falsy check
`err.get('row_index') or err.get('Row') or '?'` degrades to the
placeholder. -/
def rawRowZero : RawFinding := ⟨some "Age", none, some "imp", none, some 0, none⟩

/-- Eight raw findings sharing the (column, issue) pair ("Age", "impossible"),
at rows 1..8. -/
def rawsEight : List RawFinding :=
  (List.range 8).map (fun i => ⟨some "Age", none, some "impossible", none,
    some ((i : Int) + 1), none⟩)

/-- A small session state (issue payloads are `Nat`) with one history entry,
used to exercise the checkpoint round trip. -/
def exSession : SessionState Nat :=
  { uploaded_file := some 7,
    df := some dfNegNull,
    history := [⟨"t0", dfIQR, some 7, "Upload", none, "General", none, none,
      "UPLOAD", false, 0, [], [], [], [], ∅, 0, 0⟩],
    schema_locked := true,
    app_stage := "AUDIT",
    fast_issues := [3, 4],
    vocab_issues := [5],
    stat_issues := [6],
    deep_issues := [7, 8],
    ignored_issues := {("x", "Missing Values")},
    fast_count_start := 2,
    deep_count_start := 1,
    header_idx := 1 }

/-!  # Shared lemmas

The arithmetic of `ℚ` in core is `@[irreducible]`; the witnesses evaluate
concrete rational arithmetic, so it is made semireducible for the rest of
the development (the kernel ignores reducibility attributes either way). -/
attribute [local semireducible] Rat.sub Rat.add Rat.mul Rat.inv


theorem dedupFirstAux_mem {α : Type} [DecidableEq α] (xs : List α) :
    ∀ (seen : List α) (a : α), a ∈ dedupFirstAux seen xs ↔ a ∈ xs ∧ a ∉ seen := by
  induction xs with
  | nil => intro seen a; simp [dedupFirstAux]
  | cons x xs ih =>
    intro seen a
    by_cases hx : x ∈ seen
    · rw [dedupFirstAux, if_pos hx, ih]
      simp only [List.mem_cons]
      constructor
      · rintro ⟨h1, h2⟩; exact ⟨Or.inr h1, h2⟩
      · rintro ⟨rfl | h1, h2⟩
        · exact absurd hx h2
        · exact ⟨h1, h2⟩
    · rw [dedupFirstAux, if_neg hx]
      simp only [List.mem_cons, ih]
      constructor
      · rintro (rfl | ⟨h1, h2⟩)
        · exact ⟨Or.inl rfl, hx⟩
        · exact ⟨Or.inr h1, fun hs => h2 (by simp [hs])⟩
      · rintro ⟨rfl | h1, h2⟩
        · exact Or.inl rfl
        · by_cases hax : a = x
          · exact Or.inl hax
          · exact Or.inr ⟨h1, by simp [hax, h2]⟩

theorem dedupFirst_mem {α : Type} [DecidableEq α] (xs : List α) (a : α) :
    a ∈ dedupFirst xs ↔ a ∈ xs := by
  rw [dedupFirst, dedupFirstAux_mem]; simp

theorem dedupFirstAux_nodup {α : Type} [DecidableEq α] (xs : List α) :
    ∀ seen : List α, (dedupFirstAux seen xs).Nodup := by
  induction xs with
  | nil => intro seen; simp [dedupFirstAux]
  | cons x xs ih =>
    intro seen
    by_cases hx : x ∈ seen
    · rw [dedupFirstAux, if_pos hx]; exact ih seen
    · rw [dedupFirstAux, if_neg hx]
      refine List.nodup_cons.2 ⟨fun hmem => ?_, ih _⟩
      rcases (dedupFirstAux_mem xs (x :: seen) x).1 hmem with ⟨-, h2⟩
      exact h2 (List.mem_cons_self _ _)

theorem dedupFirst_nodup {α : Type} [DecidableEq α] (xs : List α) :
    (dedupFirst xs).Nodup := dedupFirstAux_nodup xs []

theorem dedupFirstAux_sublist {α : Type} [DecidableEq α] (xs : List α) :
    ∀ seen : List α, (dedupFirstAux seen xs).Sublist xs := by
  induction xs with
  | nil => intro seen; simp [dedupFirstAux]
  | cons x xs ih =>
    intro seen
    by_cases hx : x ∈ seen
    · rw [dedupFirstAux, if_pos hx]; exact (ih seen).cons x
    · rw [dedupFirstAux, if_neg hx]; exact (ih (x :: seen)).cons₂ x

theorem dedupFirst_sublist {α : Type} [DecidableEq α] (xs : List α) :
    (dedupFirst xs).Sublist xs := dedupFirstAux_sublist xs []

/-- `dedupFirstAux` only consults its `seen` accumulator through membership. -/
theorem dedupFirstAux_congr {α : Type} [DecidableEq α] (xs : List α) :
    ∀ (s1 s2 : List α), (∀ a, a ∈ s1 ↔ a ∈ s2) →
      dedupFirstAux s1 xs = dedupFirstAux s2 xs := by
  induction xs with
  | nil => intro s1 s2 _; rfl
  | cons x xs ih =>
    intro s1 s2 hs
    by_cases hx : x ∈ s1
    · rw [dedupFirstAux, if_pos hx, dedupFirstAux, if_pos ((hs x).1 hx)]
      exact ih s1 s2 hs
    · rw [dedupFirstAux, if_neg hx, dedupFirstAux, if_neg (fun h => hx ((hs x).2 h))]
      refine congrArg (x :: ·) (ih _ _ ?_)
      intro a; simp [hs a]

/-- The accumulator formulation of first-occurrence deduplication agrees
with the textbook fold `acc ++ [r]` for unseen `r`. -/
theorem foldl_firstOcc_eq_dedupFirstAux {α : Type} [DecidableEq α] (xs : List α) :
    ∀ acc : List α,
      xs.foldl (fun acc r => if r ∈ acc then acc else acc ++ [r]) acc
        = acc ++ dedupFirstAux acc xs := by
  induction xs with
  | nil => intro acc; simp [dedupFirstAux]
  | cons x xs ih =>
    intro acc
    by_cases hx : x ∈ acc
    · rw [List.foldl_cons, if_pos hx, dedupFirstAux, if_pos hx, ih]
    · rw [List.foldl_cons, if_neg hx, dedupFirstAux, if_neg hx, ih]
      rw [dedupFirstAux_congr xs (acc ++ [x]) (x :: acc) (by intro a; simp [or_comm])]
      simp

theorem dedupFirst_eq_firstOccurrences {α : Type} [DecidableEq α] (xs : List α) :
    dedupFirst xs = firstOccurrences xs := by
  rw [firstOccurrences, foldl_firstOcc_eq_dedupFirstAux]; rfl

/-!  # Claim C7: unknown strategies are silent no-ops -/

/-- Claim C7: for every table, every column, and every strategy name that no
branch of `apply_fix` recognizes (none of the exact names and no name
containing "Forward Fill" or "Backward Fill"), `apply_fix` returns the input
table unchanged.  The embedding is total, which mirrors that the Python
function raises nothing on this path: it touches neither the table nor the
column before falling through to `return df`. -/
theorem unknown_strategy_is_noop (df : Table) (s : String) (c : Nat) (v : Option Val)
    (h : recognizedFix s = false) : apply_fix df s c v = df := by
  simp only [recognizedFix, Bool.or_eq_false_iff, decide_eq_false_iff_not,
    knownExactFixes, List.mem_cons, List.not_mem_nil, or_false] at h
  obtain ⟨⟨hmem, hF⟩, hB⟩ := h
  push_neg at hmem
  obtain ⟨e1, e2, e3, e4, e5, e6, e7, e8, e9, e10, e11, e12, e13, e14, e15, e16,
    e17, e18, e19, e20⟩ := hmem
  simp [apply_fix, e1, e2, e3, e4, e5, e6, e7, e8, e9, e10, e11, e12, e13,
    e14, e15, e16, e17, e18, e19, e20, hF, hB]

/-- Witness for C7 at the concrete unknown name "Impute Gently" on a
two-row table. -/
theorem unknown_strategy_is_noop_witness :
    recognizedFix "Impute Gently" = false ∧
      apply_fix dfNegNull "Impute Gently" 0 none = dfNegNull :=
  ⟨by decide, unknown_strategy_is_noop dfNegNull "Impute Gently" 0 none (by decide)⟩

/-!  # Claim C8: the menu's "Drop Rows" option versus the fixer

The structural scanner's missing-values menus offer the strategy name
"Drop Rows", but `apply_fix` only recognizes "Drop Rows (Nulls)"; the
offered name matches no dispatch branch, so applying it returns the table
unchanged and removes no null row. -/

/-- Claim C8 (failing input): the numeric missing-values menu contains
"Drop Rows"; on the Int64 column [-1, null, 2] the strategy "Drop Rows"
leaves the table — and its null count of 1 — unchanged, instead of removing
the null row. -/
theorem menu_drop_rows_is_noop :
    "Drop Rows" ∈ get_fix_strategies "Missing Values" DType.i64 ∧
    recognizedFix "Drop Rows" = false ∧
    apply_fix dfNegNull "Drop Rows" 0 none = dfNegNull ∧
    nullCountAt dfNegNull 0 = 1 := by
  refine ⟨by decide, by decide, ?_, by decide⟩
  exact unknown_strategy_is_noop dfNegNull "Drop Rows" 0 none (by decide)

/-!  # Claim C10: substring dispatch of the fill strategies -/

/-- Claim C10: `apply_fix` dispatches forward/backward fill by substring
containment, not exact match: any strategy name containing "Forward Fill"
forward-fills the column, and any name containing "Backward Fill" but not
"Forward Fill" backward-fills it — such names are not silent no-ops. -/
theorem fill_dispatch_by_substring (df : Table) (s : String) (c : Nat) (v : Option Val) :
    (strContains s "Forward Fill" = true →
      apply_fix df s c v = setColTo df c (forwardFillCol (df.getCol c))) ∧
    (strContains s "Backward Fill" = true → strContains s "Forward Fill" = false →
      apply_fix df s c v = setColTo df c (backwardFillCol (df.getCol c))) := by
  constructor
  · intro hF
    have e1 : s ≠ "Fill with Custom Value" := by rintro rfl; revert hF; decide
    have e2 : s ≠ "Replace Negatives with Custom Value" := by rintro rfl; revert hF; decide
    have e3 : s ≠ "Fill with Median" := by rintro rfl; revert hF; decide
    have e4 : s ≠ "Fill with Mean" := by rintro rfl; revert hF; decide
    have e5 : s ≠ "Fill with Mode" := by rintro rfl; revert hF; decide
    have e6 : s ≠ "Fill with 0" := by rintro rfl; revert hF; decide
    have e7 : s ≠ "Fill with -1" := by rintro rfl; revert hF; decide
    have e8 : s ≠ "Fill with 'Unknown'" := by rintro rfl; revert hF; decide
    have e9 : s ≠ "Fill with 'Missing'" := by rintro rfl; revert hF; decide
    simp [apply_fix, e1, e2, e3, e4, e5, e6, e7, e8, e9, hF]
  · intro hB hF
    have e1 : s ≠ "Fill with Custom Value" := by rintro rfl; revert hB; decide
    have e2 : s ≠ "Replace Negatives with Custom Value" := by rintro rfl; revert hB; decide
    have e3 : s ≠ "Fill with Median" := by rintro rfl; revert hB; decide
    have e4 : s ≠ "Fill with Mean" := by rintro rfl; revert hB; decide
    have e5 : s ≠ "Fill with Mode" := by rintro rfl; revert hB; decide
    have e6 : s ≠ "Fill with 0" := by rintro rfl; revert hB; decide
    have e7 : s ≠ "Fill with -1" := by rintro rfl; revert hB; decide
    have e8 : s ≠ "Fill with 'Unknown'" := by rintro rfl; revert hB; decide
    have e9 : s ≠ "Fill with 'Missing'" := by rintro rfl; revert hB; decide
    have e10 : s ≠ "Forward Fill" := by rintro rfl; revert hF; decide
    simp [apply_fix, e1, e2, e3, e4, e5, e6, e7, e8, e9, e10, hF, hB]

/-- Witness for C10: the out-of-catalog names "Smart Forward Fill" and
"Reverse Backward Fill" really fill the column [-1, null, 2] (forward fill
copies -1 into the null; backward fill copies 2 into it). -/
theorem fill_dispatch_by_substring_witness :
    apply_fix dfNegNull "Smart Forward Fill" 0 none
        = setColTo dfNegNull 0 (forwardFillCol (dfNegNull.getCol 0)) ∧
    apply_fix dfNegNull "Reverse Backward Fill" 0 none
        = setColTo dfNegNull 0 (backwardFillCol (dfNegNull.getCol 0)) ∧
    (apply_fix dfNegNull "Smart Forward Fill" 0 none).rows
        = [[some (.vNum (-1))], [some (.vNum (-1))], [some (.vNum 2)]] ∧
    (apply_fix dfNegNull "Reverse Backward Fill" 0 none).rows
        = [[some (.vNum (-1))], [some (.vNum 2)], [some (.vNum 2)]] := by
  have h1 := (fill_dispatch_by_substring dfNegNull "Smart Forward Fill" 0 none).1
    (by decide)
  have h2 := (fill_dispatch_by_substring dfNegNull "Reverse Backward Fill" 0 none).2
    (by decide) (by decide)
  exact ⟨h1, h2, by rw [h1]; exact rfl, by rw [h2]; exact rfl⟩

/-!  # Claim C2: "Drop Rows (Negatives)" retains nulls -/

/-- The filter mask of the negative-drop fix accepts a cell iff it is null
or holds a nonnegative number. -/
theorem keepNonNegOrNull_iff (x : Option Val) :
    keepNonNegOrNull x = true ↔ x = none ∨ ∃ q, x = some (Val.vNum q) ∧ 0 ≤ q := by
  rcases x with - | v
  · simp [keepNonNegOrNull]
  · rcases v with q | s | b <;> simp [keepNonNegOrNull]

/-- Claim C2: on a numeric column, "Drop Rows (Negatives)" retains exactly
the rows whose cell in that column is null or ≥ 0, removes no null row, and
leaves the column's null count unchanged. -/
theorem drop_negatives_keeps_nulls (df : Table) (c : Nat) (v : Option Val)
    (_hnum : ∀ r ∈ df.rows, getCell r c = none ∨ ∃ q, getCell r c = some (Val.vNum q)) :
    (apply_fix df "Drop Rows (Negatives)" c v).rows
        = df.rows.filter (fun r => keepNonNegOrNull (getCell r c)) ∧
    (∀ r, r ∈ (apply_fix df "Drop Rows (Negatives)" c v).rows ↔
      r ∈ df.rows ∧ (getCell r c = none ∨ ∃ q, getCell r c = some (Val.vNum q) ∧ 0 ≤ q)) ∧
    nullCountAt (apply_fix df "Drop Rows (Negatives)" c v) c = nullCountAt df c ∧
    (∀ r ∈ df.rows, getCell r c = none →
      r ∈ (apply_fix df "Drop Rows (Negatives)" c v).rows) := by
  have hred : apply_fix df "Drop Rows (Negatives)" c v
      = ⟨df.schema, df.rows.filter (fun r => keepNonNegOrNull (getCell r c))⟩ := rfl
  refine ⟨by rw [hred], ?_, ?_, ?_⟩
  · intro r
    rw [hred]
    show r ∈ df.rows.filter _ ↔ _
    rw [List.mem_filter, keepNonNegOrNull_iff]
  · rw [hred]
    show ((df.rows.filter (fun r => keepNonNegOrNull (getCell r c))).map
        (fun r => getCell r c)).countP (fun x => x.isNone)
      = (df.rows.map (fun r => getCell r c)).countP (fun x => x.isNone)
    rw [List.countP_map, List.countP_map, List.countP_filter]
    have hpt : (fun r => Option.isNone (getCell r c) && keepNonNegOrNull (getCell r c))
        = fun r => Option.isNone (getCell r c) := by
      funext r
      rcases h : getCell r c with - | w
      · simp [keepNonNegOrNull, h]
      · simp [h]
    simp only [Function.comp] at hpt ⊢
    rw [hpt]
    rfl
  · intro r hr hnull
    rw [hred]
    show r ∈ df.rows.filter _
    rw [List.mem_filter]
    exact ⟨hr, (keepNonNegOrNull_iff _).2 (Or.inl hnull)⟩

/-- Witness for C2 on the Int64 column [-1, null, 2]: the negative row is
dropped, the null row survives, the null count stays 1. -/
theorem drop_negatives_keeps_nulls_witness :
    (apply_fix dfNegNull "Drop Rows (Negatives)" 0 none).rows
        = [[none], [some (.vNum 2)]] ∧
    nullCountAt (apply_fix dfNegNull "Drop Rows (Negatives)" 0 none) 0
        = nullCountAt dfNegNull 0 ∧
    nullCountAt dfNegNull 0 = 1 := by
  have h := drop_negatives_keeps_nulls dfNegNull 0 none ?hnum
  case hnum =>
    intro r hr
    simp only [dfNegNull, List.mem_cons, List.not_mem_nil, or_false] at hr
    rcases hr with rfl | rfl | rfl
    · exact Or.inr ⟨-1, rfl⟩
    · exact Or.inl rfl
    · exact Or.inr ⟨2, rfl⟩
  exact ⟨by rw [h.1]; exact rfl, h.2.2.1, by decide⟩

/-!  # Claim C6: the duplicate fixes -/

/-- The executable representatives the embedding uses for `df.unique` are
legal behaviors of the library's contract. -/
theorem dedup_meets_uniqueContract {α : Type} [DecidableEq α] (xs : List α) :
    uniqueContract xs (dedupFirst xs) ∧ uniqueContract xs (dedupLast xs) := by
  refine ⟨⟨dedupFirst_nodup xs, fun a => dedupFirst_mem xs a⟩, ?_, ?_⟩
  · rw [dedupLast]
    exact List.nodup_reverse.2 (dedupFirst_nodup _)
  · intro a
    rw [dedupLast, List.mem_reverse, dedupFirst_mem, List.mem_reverse]

/-- In a duplicate-free list every member occurs exactly once. -/
theorem countP_eq_one_of_nodup_mem {α : Type} [DecidableEq α] :
    ∀ {l : List α} {a : α}, l.Nodup → a ∈ l →
      l.countP (fun x => decide (x = a)) = 1 := by
  intro l
  induction l with
  | nil => intro a _ ha; cases ha
  | cons x xs ih =>
    intro a hn ha
    rw [List.countP_cons]
    rcases List.mem_cons.1 ha with rfl | hxs
    · have hx : xs.countP (fun y => decide (y = a)) = 0 := by
        rw [List.countP_eq_zero]
        intro y hy
        simp only [decide_eq_true_eq]
        rintro rfl
        exact (List.nodup_cons.1 hn).1 hy
      simp [hx]
    · have hxa : ¬ x = a := by
        rintro rfl
        exact (List.nodup_cons.1 hn).1 hxs
      rw [ih (List.nodup_cons.1 hn).2 hxs]
      simp [hxa]

/-- Claim C6 (amended): each of "Remove Duplicates", "Keep First" and
"Keep Last" returns a table holding exactly one occurrence of each distinct
input row — everything polars' `unique` guarantees with its default
`maintain_order=False`; no output order, and (rows being compared whole) no
observable first-vs-last distinction, is guaranteed.  The spec's example
[A, B, A, C, B] with distinct A, B, C reduces under all three fixes to
exactly 3 rows whose row set is {A, B, C}. -/
theorem duplicate_fixes (df : Table) (c : Nat) (v : Option Val) :
    (uniqueContract df.rows (apply_fix df "Remove Duplicates" c v).rows ∧
     uniqueContract df.rows (apply_fix df "Keep First" c v).rows ∧
     uniqueContract df.rows (apply_fix df "Keep Last" c v).rows) ∧
    (∀ r ∈ df.rows,
      (apply_fix df "Remove Duplicates" c v).rows.countP (fun x => decide (x = r)) = 1 ∧
      (apply_fix df "Keep First" c v).rows.countP (fun x => decide (x = r)) = 1 ∧
      (apply_fix df "Keep Last" c v).rows.countP (fun x => decide (x = r)) = 1) ∧
    ((apply_fix dfDupEx "Remove Duplicates" 0 none).rows.length = 3 ∧
     (apply_fix dfDupEx "Keep First" 0 none).rows.length = 3 ∧
     (apply_fix dfDupEx "Keep Last" 0 none).rows.length = 3 ∧
     ∀ r, r ∈ (apply_fix dfDupEx "Remove Duplicates" 0 none).rows ↔
       (r = rowA ∨ r = rowB ∨ r = rowC)) := by
  have hrd : apply_fix df "Remove Duplicates" c v
      = ⟨df.schema, dedupFirst df.rows⟩ := rfl
  have hkf : apply_fix df "Keep First" c v = ⟨df.schema, dedupFirst df.rows⟩ := rfl
  have hkl : apply_fix df "Keep Last" c v = ⟨df.schema, dedupLast df.rows⟩ := rfl
  have hcf := dedup_meets_uniqueContract df.rows
  refine ⟨⟨by rw [hrd]; exact hcf.1, by rw [hkf]; exact hcf.1,
           by rw [hkl]; exact hcf.2⟩, ?_, rfl, rfl, rfl, ?_⟩
  · intro r hr
    refine ⟨?_, ?_, ?_⟩
    · rw [hrd]
      exact countP_eq_one_of_nodup_mem hcf.1.1 ((hcf.1.2 r).2 hr)
    · rw [hkf]
      exact countP_eq_one_of_nodup_mem hcf.1.1 ((hcf.1.2 r).2 hr)
    · rw [hkl]
      exact countP_eq_one_of_nodup_mem hcf.2.1 ((hcf.2.2 r).2 hr)
  · intro r
    have hc : (apply_fix dfDupEx "Remove Duplicates" 0 none).rows
        = [rowA, rowB, rowC] := rfl
    rw [hc]
    simp [List.mem_cons]

/-- Claim C6 counterexample: at the spec's own example [A, B, A, C, B], the
output [B, A, C] satisfies everything `df.unique` guarantees under polars'
default `maintain_order=False`, yet is neither the first-occurrence order
[A, B, C] claimed for "Keep First" nor the last-occurrence order [A, C, B]
claimed for "Keep Last" — the claimed orders are not guaranteed by the
program. -/
theorem keep_first_order_counterexample :
    uniqueContract dfDupEx.rows [rowB, rowA, rowC] ∧
    [rowB, rowA, rowC] ≠ firstOccurrences dfDupEx.rows ∧
    [rowB, rowA, rowC] ≠ (firstOccurrences dfDupEx.rows.reverse).reverse := by
  refine ⟨⟨by decide, ?_⟩, by decide, by decide⟩
  intro a
  show a ∈ [rowB, rowA, rowC] ↔ a ∈ dfDupEx.rows
  simp only [dfDupEx, List.mem_cons, List.not_mem_nil, or_false]
  tauto

/-!  # Claim C1: the janitor's bounded generate/validate retry loop -/

/-- Claim C1: `run_janitor` makes at most 3 model invocations; when every
attempt's reply survives the invocation but fails validation, it performs
exactly 3 invocations and returns the failure sentinel embedding the last
error text (a plain string — the embedding is total, mirroring that no
exception escapes the Python function); when the invocation itself raises on
ANY attempt `i` (after any number of prior validity failures), it returns
the connection-error sentinel at once, with `i + 1` invocations and no
retry; and when validation succeeds on any attempt `i`, the extracted code
of that attempt is returned immediately, with `i + 1` invocations. -/
theorem janitor_retry_contract (m : JanitorModel) :
    (run_janitor m).2 ≤ 3 ∧
    (∀ raw err : Nat → String,
      (∀ i, i < 3 → m.invoke i = .ok (raw i)) →
      (∀ i, i < 3 → m.validate (extract_code (raw i)) = some (err i)) →
      run_janitor m = (exhaustSentinel (err 2), 3) ∧
        ∃ p, (run_janitor m).1 = p ++ err 2) ∧
    (∀ (i : Nat) (raw err : Nat → String) (e : String), i < 3 →
      (∀ j, j < i → m.invoke j = .ok (raw j)) →
      (∀ j, j < i → m.validate (extract_code (raw j)) = some (err j)) →
      m.invoke i = .error e →
      run_janitor m = (connSentinel e, i + 1)) ∧
    (∀ (i : Nat) (raw err : Nat → String) (r : String), i < 3 →
      (∀ j, j < i → m.invoke j = .ok (raw j)) →
      (∀ j, j < i → m.validate (extract_code (raw j)) = some (err j)) →
      m.invoke i = .ok r → m.validate (extract_code r) = none →
      run_janitor m = (extract_code r, i + 1)) := by
  refine ⟨?_, ?_, ?_, ?_⟩
  · show (janitorLoop m 3 0 "").2 ≤ 3
    rw [janitorLoop]
    rcases m.invoke 0 with e0 | r0
    · simp
    · simp only
      rcases m.validate (extract_code r0) with - | err0
      · simp
      · simp only [janitorLoop]
        rcases m.invoke 1 with e1 | r1
        · simp
        · simp only
          rcases m.validate (extract_code r1) with - | err1
          · simp
          · simp only [janitorLoop]
            rcases m.invoke 2 with e2 | r2
            · simp
            · simp only
              rcases m.validate (extract_code r2) with - | err2 <;> simp [janitorLoop]
  · intro raw err hok hval
    have h0 := hok 0 (by omega)
    have h1 := hok 1 (by omega)
    have h2 := hok 2 (by omega)
    have v0 := hval 0 (by omega)
    have v1 := hval 1 (by omega)
    have v2 := hval 2 (by omega)
    have hrun : run_janitor m = (exhaustSentinel (err 2), 3) := by
      show janitorLoop m 3 0 "" = _
      simp only [janitorLoop, h0, h1, h2, v0, v1, v2]
    exact ⟨hrun, by rw [hrun]; exact ⟨_, rfl⟩⟩
  · intro i raw err e hi hok hval hconn
    show janitorLoop m 3 0 "" = _
    interval_cases i
    · rw [janitorLoop, hconn]
    · simp only [janitorLoop, hok 0 (by omega), hval 0 (by omega), hconn]
    · simp only [janitorLoop, hok 0 (by omega), hval 0 (by omega),
        hok 1 (by omega), hval 1 (by omega), hconn]
  · intro i raw err r hi hok hval hinv hv
    show janitorLoop m 3 0 "" = _
    interval_cases i
    · rw [janitorLoop, hinv]
      simp only [hv]
    · simp only [janitorLoop, hok 0 (by omega), hval 0 (by omega), hinv, hv]
    · simp only [janitorLoop, hok 0 (by omega), hval 0 (by omega),
        hok 1 (by omega), hval 1 (by omega), hinv, hv]

/-- Witness for C1, covering all four shapes: a model whose replies always
fail validation gives exactly 3 invocations and the sentinel carrying the
last error; a first-attempt connection failure returns at once; a
connection failure on attempt 1, after one validity failure, returns its
sentinel with 2 invocations and no further attempt; and a valid reply on
attempt 1 returns the extracted fenced code with 2 invocations. -/
theorem janitor_retry_contract_witness :
    run_janitor ⟨fun _ => .ok "no code", fun _ => some "SyntaxError: bad"⟩
        = (exhaustSentinel "SyntaxError: bad", 3) ∧
    run_janitor ⟨fun _ => .error "connection refused", fun _ => none⟩
        = (connSentinel "connection refused", 1) ∧
    run_janitor ⟨fun i => if i = 0 then .ok "bad reply" else .error "backend down",
        fun _ => some "E0"⟩ = (connSentinel "backend down", 2) ∧
    run_janitor ⟨fun i => if i = 0 then .ok "junk" else .ok "```python\nok_code\n```",
        fun c => if c = "ok_code" then none else some "E1"⟩
      = ("ok_code", 2) := by
  refine ⟨?_, ?_, ?_, ?_⟩
  · exact ((janitor_retry_contract
      ⟨fun _ => .ok "no code", fun _ => some "SyntaxError: bad"⟩).2.1
      (fun _ => "no code") (fun _ => "SyntaxError: bad")
      (fun _ _ => rfl) (fun _ _ => rfl)).1
  · exact (janitor_retry_contract
      ⟨fun _ => .error "connection refused", fun _ => none⟩).2.2.1
      0 (fun _ => "") (fun _ => "") "connection refused" (by omega)
      (fun j hj => absurd hj (Nat.not_lt_zero j))
      (fun j hj => absurd hj (Nat.not_lt_zero j)) rfl
  · exact (janitor_retry_contract
      ⟨fun i => if i = 0 then .ok "bad reply" else .error "backend down",
        fun _ => some "E0"⟩).2.2.1
      1 (fun _ => "bad reply") (fun _ => "E0") "backend down" (by omega)
      (fun j hj => by rw [Nat.lt_one_iff.mp hj]; exact rfl)
      (fun j hj => rfl) rfl
  · have h := (janitor_retry_contract
      ⟨fun i => if i = 0 then .ok "junk" else .ok "```python\nok_code\n```",
        fun c => if c = "ok_code" then none else some "E1"⟩).2.2.2
      1 (fun _ => "junk") (fun _ => "E1") "```python\nok_code\n```" (by omega)
      (fun j hj => by rw [Nat.lt_one_iff.mp hj]; exact rfl)
      (fun j hj => by rw [Nat.lt_one_iff.mp hj]; exact rfl) rfl rfl
    rw [h]
    exact rfl

/-!  # Claim C9: checkpoint round trip -/

/-- Claim C9: saving a checkpoint appends a snapshot of the current table
and derived issue lists; restoring to any index `k` whose snapshot is still
in the history reproduces exactly the captured table, the four issue lists
and the ignored registry, and truncates the history to `[:k+1]`, so no
checkpoint after index `k` survives.  In particular the save/restore round
trip at the index of a fresh checkpoint returns every derived list to its
creation-time value. -/
theorem checkpoint_roundtrip {ι : Type} (s : SessionState ι) (t : Table)
    (ts summary0 : String) (details : Option String) (cat : String)
    (sub chg : Option String)
    (hdf : s.df = some t)
    (hguard : (s.history.getLast?).elim false
        (fun last => last.summary = summary0 && last.details = details) = false) :
    (save_checkpoint s ts summary0 details cat sub chg).history.length
        = s.history.length + 1 ∧
    (restore_checkpoint (save_checkpoint s ts summary0 details cat sub chg)
        s.history.length).df = some t ∧
    (restore_checkpoint (save_checkpoint s ts summary0 details cat sub chg)
        s.history.length).fast_issues = s.fast_issues ∧
    (restore_checkpoint (save_checkpoint s ts summary0 details cat sub chg)
        s.history.length).vocab_issues = s.vocab_issues ∧
    (restore_checkpoint (save_checkpoint s ts summary0 details cat sub chg)
        s.history.length).stat_issues = s.stat_issues ∧
    (restore_checkpoint (save_checkpoint s ts summary0 details cat sub chg)
        s.history.length).deep_issues = s.deep_issues ∧
    (restore_checkpoint (save_checkpoint s ts summary0 details cat sub chg)
        s.history.length).ignored_issues = s.ignored_issues ∧
    (∀ (s2 : SessionState ι) (j : Nat) (snap : Snapshot ι),
      (s2.history.drop j).head? = some snap →
      (restore_checkpoint s2 j).history = s2.history.take (j + 1) ∧
      (restore_checkpoint s2 j).history.length ≤ j + 1 ∧
      (restore_checkpoint s2 j).df = some snap.df ∧
      (restore_checkpoint s2 j).fast_issues = snap.fast_issues ∧
      (restore_checkpoint s2 j).vocab_issues = snap.vocab_issues ∧
      (restore_checkpoint s2 j).stat_issues = snap.stat_issues ∧
      (restore_checkpoint s2 j).deep_issues = snap.deep_issues ∧
      (restore_checkpoint s2 j).ignored_issues = snap.ignored_issues) := by
  have hsave : save_checkpoint s ts summary0 details cat sub chg
      = { s with history := s.history ++
          [⟨ts, t, s.uploaded_file, summary0, details, cat, sub,
            chg, s.app_stage, s.schema_locked, s.header_idx,
            s.fast_issues, s.vocab_issues, s.stat_issues, s.deep_issues,
            s.ignored_issues, s.fast_count_start, s.deep_count_start⟩] } := by
    rw [save_checkpoint, hdf]
    simp only [hguard, Bool.false_eq_true, if_false]
  have hdrop : (((save_checkpoint s ts summary0 details cat sub chg).history).drop
      s.history.length).head?
      = some ⟨ts, t, s.uploaded_file, summary0, details, cat, sub,
          chg, s.app_stage, s.schema_locked, s.header_idx,
          s.fast_issues, s.vocab_issues, s.stat_issues, s.deep_issues,
          s.ignored_issues, s.fast_count_start, s.deep_count_start⟩ := by
    rw [hsave]
    show ((s.history ++ [_]).drop s.history.length).head? = _
    rw [List.drop_left]
    rfl
  have hgen : ∀ (s2 : SessionState ι) (j : Nat) (snap : Snapshot ι),
      (s2.history.drop j).head? = some snap →
      (restore_checkpoint s2 j).history = s2.history.take (j + 1) ∧
      (restore_checkpoint s2 j).history.length ≤ j + 1 ∧
      (restore_checkpoint s2 j).df = some snap.df ∧
      (restore_checkpoint s2 j).fast_issues = snap.fast_issues ∧
      (restore_checkpoint s2 j).vocab_issues = snap.vocab_issues ∧
      (restore_checkpoint s2 j).stat_issues = snap.stat_issues ∧
      (restore_checkpoint s2 j).deep_issues = snap.deep_issues ∧
      (restore_checkpoint s2 j).ignored_issues = snap.ignored_issues := by
    intro s2 j snap h
    rw [restore_checkpoint, h]
    refine ⟨rfl, ?_, rfl, rfl, rfl, rfl, rfl, rfl⟩
    show (s2.history.take (j + 1)).length ≤ j + 1
    simp [List.length_take]
  have hmain := hgen (save_checkpoint s ts summary0 details cat sub chg)
    s.history.length _ hdrop
  refine ⟨by rw [hsave]; simp, hmain.2.2.1, hmain.2.2.2.1, hmain.2.2.2.2.1,
    hmain.2.2.2.2.2.1, hmain.2.2.2.2.2.2.1, hmain.2.2.2.2.2.2.2, hgen⟩

/-- Witness for C9: the concrete session `exSession` (one prior checkpoint)
saves a new checkpoint at index 1 and restores it, recovering the table
[-1, null, 2] and every derived issue list, with the history truncated to
two entries. -/
theorem checkpoint_roundtrip_witness :
    (restore_checkpoint (save_checkpoint exSession "t1" "Fixed x" none "Audit"
        none none) 1).df = some dfNegNull ∧
    (restore_checkpoint (save_checkpoint exSession "t1" "Fixed x" none "Audit"
        none none) 1).fast_issues = [3, 4] ∧
    (restore_checkpoint (save_checkpoint exSession "t1" "Fixed x" none "Audit"
        none none) 1).deep_issues = [7, 8] ∧
    (restore_checkpoint (save_checkpoint exSession "t1" "Fixed x" none "Audit"
        none none) 1).history.length ≤ 2 := by
  have h := checkpoint_roundtrip exSession dfNegNull "t1" "Fixed x" none "Audit"
    none none rfl (by decide)
  exact ⟨h.2.1, h.2.2.1, h.2.2.2.2.2.1, by decide⟩

/-!  # Claim C5: IQR outlier detection -/

/-- An issue produced by the per-column body carries that column's index. -/
theorem statIssueFor_column (df : Table) (c : Nat) (i : StatIssue)
    (h : statIssueFor df c = some i) : i.column = c := by
  rw [statIssueFor] at h
  split at h
  · exact absurd h (by simp)
  · split at h
    · exact absurd h (by simp)
    · split at h
      · split at h
        · rw [Option.some_inj] at h
          rw [← h]
        · exact absurd h (by simp)
      · exact absurd h (by simp)

/-- Membership in the scan is membership of some in-range column's issue. -/
theorem mem_scan_statistical (df : Table) (i : StatIssue) :
    i ∈ scan_statistical_numeric df
      ↔ ∃ c, c < df.schema.length ∧ statIssueFor df c = some i := by
  rw [scan_statistical_numeric, List.mem_filterMap]
  constructor
  · rintro ⟨c, hc, h⟩
    exact ⟨c, List.mem_range.1 hc, h⟩
  · rintro ⟨c, hc, h⟩
    exact ⟨c, List.mem_range.2 hc, h⟩

/-- Claim C5: the statistical scanner skips a numeric column with fewer than
5 distinct values (null counting as one value, as polars' `n_unique` does)
and skips silently when a quartile cannot be computed; otherwise, with
Q1 and Q3 the `nearest`-interpolation quartiles of the non-null values, it
emits an issue for the column iff some value lies strictly below
`Q1 - 1.5*IQR` or strictly above `Q3 + 1.5*IQR`, and that issue counts
exactly the strictly-outside values (first three as examples). -/
theorem iqr_outlier_contract (df : Table) (c : Nat) (hc : c < df.schema.length) :
    ((dedupFirst (df.getCol c)).length < 5 →
      ∀ i ∈ scan_statistical_numeric df, i.column ≠ c) ∧
    ((quantileNearest (numsOf (df.getCol c)) (1/4) = none ∨
      quantileNearest (numsOf (df.getCol c)) (3/4) = none) →
      ∀ i ∈ scan_statistical_numeric df, i.column ≠ c) ∧
    (∀ q1 q3, (dtypeAt df c).isNumericCore = true →
      5 ≤ (dedupFirst (df.getCol c)).length →
      quantileNearest (numsOf (df.getCol c)) (1/4) = some q1 →
      quantileNearest (numsOf (df.getCol c)) (3/4) = some q3 →
      ((∃ i ∈ scan_statistical_numeric df, i.column = c) ↔
        outlierVals (df.getCol c) (q1 - (3/2) * (q3 - q1)) (q3 + (3/2) * (q3 - q1))
          ≠ []) ∧
      (∀ i ∈ scan_statistical_numeric df, i.column = c →
        i.count = (outlierVals (df.getCol c) (q1 - (3/2) * (q3 - q1))
            (q3 + (3/2) * (q3 - q1))).length ∧
        i.examples = (outlierVals (df.getCol c) (q1 - (3/2) * (q3 - q1))
            (q3 + (3/2) * (q3 - q1))).take 3 ∧
        i.itype = "Statistical Outliers (IQR)")) := by
  have habsent : statIssueFor df c = none →
      ∀ i ∈ scan_statistical_numeric df, i.column ≠ c := by
    intro hnone i hi hcol
    rcases (mem_scan_statistical df i).1 hi with ⟨c', -, h⟩
    have hcc := statIssueFor_column df c' i h
    rw [hcol] at hcc
    rw [← hcc] at h
    rw [hnone] at h
    exact Option.noConfusion h
  refine ⟨?_, ?_, ?_⟩
  · intro hlen
    apply habsent
    rw [statIssueFor]
    by_cases hn : (dtypeAt df c).isNumericCore = false
    · rw [if_pos hn]
    · rw [if_neg hn, if_pos hlen]
  · intro hq
    apply habsent
    rw [statIssueFor]
    by_cases hn : (dtypeAt df c).isNumericCore = false
    · rw [if_pos hn]
    · rw [if_neg hn]
      by_cases hlen : (dedupFirst (df.getCol c)).length < 5
      · rw [if_pos hlen]
      · rw [if_neg hlen]
        rcases hq with hq | hq <;> rw [hq] <;>
          rcases h2 : quantileNearest (numsOf (df.getCol c)) (3/4) with - | q <;>
          rcases h1 : quantileNearest (numsOf (df.getCol c)) (1/4) with - | q' <;>
          rfl
  · intro q1 q3 hnum hlen hq1 hq3
    have hred : statIssueFor df c =
        (if (outlierVals (df.getCol c) (q1 - (3/2) * (q3 - q1))
              (q3 + (3/2) * (q3 - q1))).length > 0 then
          some ⟨"Statistical Outliers (IQR)", c,
            (outlierVals (df.getCol c) (q1 - (3/2) * (q3 - q1))
              (q3 + (3/2) * (q3 - q1))).length,
            (outlierVals (df.getCol c) (q1 - (3/2) * (q3 - q1))
              (q3 + (3/2) * (q3 - q1))).take 3,
            "Cap values (Winsorize) or Drop rows"⟩
        else none) := by
      rw [statIssueFor, if_neg (by rw [hnum]; exact fun h => Bool.noConfusion h),
        if_neg (by omega), hq1, hq3]
    constructor
    · constructor
      · rintro ⟨i, hi, hcol⟩
        rcases (mem_scan_statistical df i).1 hi with ⟨c', -, h⟩
        have hcc := statIssueFor_column df c' i h
        rw [hcol] at hcc
        rw [← hcc] at h
        rw [hred] at h
        intro hnil
        rw [hnil] at h
        simp at h
      · intro hnil
        have hpos : (outlierVals (df.getCol c) (q1 - (3/2) * (q3 - q1))
            (q3 + (3/2) * (q3 - q1))).length > 0 := by
          cases h : outlierVals (df.getCol c) (q1 - (3/2) * (q3 - q1))
              (q3 + (3/2) * (q3 - q1)) with
          | nil => exact absurd h hnil
          | cons a l => simp [h]
        refine ⟨⟨"Statistical Outliers (IQR)", c,
            (outlierVals (df.getCol c) (q1 - (3/2) * (q3 - q1))
              (q3 + (3/2) * (q3 - q1))).length,
            (outlierVals (df.getCol c) (q1 - (3/2) * (q3 - q1))
              (q3 + (3/2) * (q3 - q1))).take 3,
            "Cap values (Winsorize) or Drop rows"⟩, ?_, rfl⟩
        rw [mem_scan_statistical]
        exact ⟨c, hc, by rw [hred, if_pos hpos]⟩
    · intro i hi hcol
      rcases (mem_scan_statistical df i).1 hi with ⟨c', -, h⟩
      have hcc := statIssueFor_column df c' i h
      rw [hcol] at hcc
      rw [← hcc] at h
      rw [hred] at h
      split at h
      · rw [Option.some_inj] at h
        rw [← h]
        exact ⟨rfl, rfl, rfl⟩
      · exact Option.noConfusion h

/-- Witness for C5 on the column [1..9, 100]: Q1 = 3, Q3 = 8, bounds
[-4.5, 15.5], and the single flagged value is 100. -/
theorem iqr_outlier_contract_witness :
    quantileNearest (numsOf (dfIQR.getCol 0)) (1/4) = some 3 ∧
    quantileNearest (numsOf (dfIQR.getCol 0)) (3/4) = some 8 ∧
    ((3 : ℚ) - (3/2) * (8 - 3) = -9/2 ∧ (8 : ℚ) + (3/2) * (8 - 3) = 31/2) ∧
    outlierVals (dfIQR.getCol 0) (-9/2) (31/2) = [100] ∧
    (∃ i ∈ scan_statistical_numeric dfIQR, i.column = 0) ∧
    (∀ i ∈ scan_statistical_numeric dfIQR, i.column = 0 →
      i.count = 1 ∧ i.examples = [100]) := by
  have h := (iqr_outlier_contract dfIQR 0 (by decide)).2.2 3 8 (by decide)
    (by decide) (by decide) (by decide)
  refine ⟨by decide, by decide, ⟨by norm_num, by norm_num⟩, by decide, ?_, ?_⟩
  · exact h.1.mpr (by decide)
  · intro i hi hcol
    rcases h.2 i hi hcol with ⟨h1, h2, -⟩
    refine ⟨by rw [h1]; decide, by rw [h2]; decide⟩

/-!  # Claim C3: semantic-finding aggregation -/

/-- Appending one element to a take-capped list. -/
theorem take_append_singleton {α : Type} (n : Nat) (l : List α) (a : α) :
    (l ++ [a]).take n = if l.length < n then l.take n ++ [a] else l.take n := by
  induction l generalizing n with
  | nil =>
    cases n with
    | zero => simp
    | succ m => simp
  | cons x xs ih =>
    cases n with
    | zero => simp
    | succ m =>
      simp only [List.cons_append, List.take_succ_cons, List.length_cons, ih m]
      by_cases h : xs.length < m
      · rw [if_pos h, if_pos (by omega)]
      · rw [if_neg h, if_neg (by omega)]

/-- `any p` succeeds exactly when `filter p` is nonempty. -/
theorem any_iff_filter_ne_nil {α : Type} (l : List α) (p : α → Bool) :
    l.any p = true ↔ l.filter p ≠ [] := by
  rw [List.any_eq_true]
  constructor
  · rintro ⟨a, ha, hp⟩ hnil
    have : a ∈ l.filter p := List.mem_filter.2 ⟨ha, hp⟩
    rw [hnil] at this
    exact List.not_mem_nil a this
  · intro hne
    cases h : l.filter p with
    | nil => exact absurd h hne
    | cons a t =>
      have : a ∈ l.filter p := by rw [h]; exact List.mem_cons_self a t
      rcases List.mem_filter.1 this with ⟨ha, hp⟩
      exact ⟨a, ha, hp⟩

theorem aggKey_bumpGroup (g : AggFinding) (r : RowRef) :
    aggKey (bumpGroup g r) = aggKey g := rfl

/-- The characterization of `aggregate_deep_issues` per composite key:
the single group stored under key `k` (none when no raw finding maps to
`k`) carries the column and issue of the first such finding, the number of
such findings, and the first five of their row references. -/
theorem aggregate_filter_key (raws : List RawFinding) (k : String) :
    (aggregate_deep_issues raws).filter (fun g => decide (aggKey g = k)) =
      (match raws.filter (fun e => decide (aggKeyOf e = k)) with
       | [] => []
       | e0 :: rest => [⟨effCol e0, effIssue e0, (e0 :: rest).length,
           ((e0 :: rest).map rowRef).take 5, "Logic Paradox"⟩]) := by
  induction raws using List.reverseRecOn generalizing k with
  | nil => rfl
  | append_singleton p e ih =>
    rw [aggregate_deep_issues, List.foldl_append, List.foldl_cons, List.foldl_nil]
    rw [show p.foldl aggStep [] = aggregate_deep_issues p from rfl]
    simp only [aggStep]
    by_cases hk : k = aggKeyOf e
    · subst hk
      by_cases hany : ((aggregate_deep_issues p).any
          (fun g => decide (aggKey g = aggKeyOf e))) = true
      · rw [if_pos hany]
        have hpfne : p.filter (fun e1 => decide (aggKeyOf e1 = aggKeyOf e)) ≠ [] := by
          intro h0
          have hne := (any_iff_filter_ne_nil _ _).1 hany
          rw [ih, h0] at hne
          exact hne rfl
        have hcomp : ((fun g => decide (aggKey g = aggKeyOf e)) ∘
            (fun g => if aggKey g = aggKeyOf e then bumpGroup g (rowRef e) else g))
            = fun g => decide (aggKey g = aggKeyOf e) := by
          funext g
          by_cases h : aggKey g = aggKeyOf e
          · simp [h, aggKey_bumpGroup]
          · simp [h]
        rw [List.filter_map, hcomp, ih, List.filter_append,
          show List.filter (fun e1 => decide (aggKeyOf e1 = aggKeyOf e)) [e] = [e]
            from by simp]
        cases hpf : p.filter (fun e1 => decide (aggKeyOf e1 = aggKeyOf e)) with
        | nil => exact absurd hpf hpfne
        | cons e0 rest =>
          have he0 : aggKeyOf e0 = aggKeyOf e := by
            have hmem : e0 ∈ p.filter (fun e1 => decide (aggKeyOf e1 = aggKeyOf e)) := by
              rw [hpf]; exact List.mem_cons_self e0 rest
            simpa using (List.mem_filter.1 hmem).2
          have he0' : (effCol e0 ++ ": " ++ effIssue e0 : String) = aggKeyOf e := he0
          simp only [List.map_cons, List.map_nil, List.cons_append, List.nil_append]
          rw [show aggKey ⟨effCol e0, effIssue e0, (e0 :: rest).length,
              (rowRef e0 :: List.map rowRef rest).take 5, "Logic Paradox"⟩
              = aggKeyOf e0 from rfl]
          rw [if_pos he0]
          rw [bumpGroup]
          congr 1
          congr 1
          · simp
          · rw [show (rowRef e0 :: List.map rowRef (rest ++ [e]))
                = (rowRef e0 :: List.map rowRef rest) ++ [rowRef e] from by simp]
            rw [take_append_singleton]
            have hlt : ((rowRef e0 :: List.map rowRef rest).take 5).length < 5
                ↔ (rowRef e0 :: List.map rowRef rest).length < 5 := by
              rw [List.length_take]; omega
            by_cases h5 : (rowRef e0 :: List.map rowRef rest).length < 5
            · rw [if_pos (hlt.2 h5), if_pos h5]
            · rw [if_neg (fun hh => h5 (hlt.1 hh)), if_neg h5]
      · rw [if_neg hany]
        have hpfnil : p.filter (fun e1 => decide (aggKeyOf e1 = aggKeyOf e)) = [] := by
          cases hpf : p.filter (fun e1 => decide (aggKeyOf e1 = aggKeyOf e)) with
          | nil => rfl
          | cons e0 rest =>
            exfalso
            apply hany
            rw [any_iff_filter_ne_nil, ih, hpf]
            simp
        rw [List.filter_append, ih, hpfnil, List.filter_append, hpfnil,
          show List.filter (fun e1 => decide (aggKeyOf e1 = aggKeyOf e)) [e] = [e]
            from by simp,
          show List.filter (fun g => decide (aggKey g = aggKeyOf e))
              [⟨effCol e, effIssue e, 1, [rowRef e], "Logic Paradox"⟩]
              = [⟨effCol e, effIssue e, 1, [rowRef e], "Logic Paradox"⟩]
            from by simp [aggKey, aggKeyOf]]
        rfl
    · have hke : List.filter (fun e1 => decide (aggKeyOf e1 = k)) [e] = [] := by
        simp only [List.filter]
        rw [decide_eq_false (fun h : aggKeyOf e = k => hk (h ▸ rfl))]
      by_cases hany : ((aggregate_deep_issues p).any
          (fun g => decide (aggKey g = aggKeyOf e))) = true
      · rw [if_pos hany]
        have hcomp : ((fun g => decide (aggKey g = k)) ∘
            (fun g => if aggKey g = aggKeyOf e then bumpGroup g (rowRef e) else g))
            = fun g => decide (aggKey g = k) := by
          funext g
          by_cases h : aggKey g = aggKeyOf e
          · simp only [Function.comp, if_pos h, aggKey_bumpGroup]
          · simp only [Function.comp, if_neg h]
        rw [List.filter_map, hcomp]
        have hid : ((aggregate_deep_issues p).filter
              (fun g => decide (aggKey g = k))).map
            (fun g => if aggKey g = aggKeyOf e then bumpGroup g (rowRef e) else g)
            = (aggregate_deep_issues p).filter (fun g => decide (aggKey g = k)) := by
          have h1 : ((aggregate_deep_issues p).filter
                (fun g => decide (aggKey g = k))).map
              (fun g => if aggKey g = aggKeyOf e then bumpGroup g (rowRef e) else g)
              = ((aggregate_deep_issues p).filter
                (fun g => decide (aggKey g = k))).map id := by
            apply List.map_congr_left
            intro g hg
            rcases List.mem_filter.1 hg with ⟨-, hgk⟩
            have hgk2 : aggKey g = k := by simpa using hgk
            rw [if_neg (fun h2 => hk (by rw [← hgk2]; exact h2))]
            rfl
          rw [h1, List.map_id]
        rw [hid, ih, List.filter_append, hke, List.append_nil]
      · rw [if_neg hany]
        have hnew : List.filter (fun g => decide (aggKey g = k))
            [⟨effCol e, effIssue e, 1, [rowRef e], "Logic Paradox"⟩] = [] := by
          simp only [List.filter]
          rw [decide_eq_false (fun h : aggKey
              ⟨effCol e, effIssue e, 1, [rowRef e], "Logic Paradox"⟩ = k =>
            hk ((show aggKey ⟨effCol e, effIssue e, 1, [rowRef e], "Logic Paradox"⟩
              = aggKeyOf e from rfl) ▸ h ▸ rfl))]
        rw [List.filter_append, hnew, List.append_nil, ih,
          List.filter_append, hke, List.append_nil]

/-- One aggregation step only creates or bumps groups, so every group's
(column, issue) pair is either inherited from the accumulator or is the
normalized pair of the processed finding. -/
theorem aggStep_pairs (A : List AggFinding) (e : RawFinding) (g : AggFinding)
    (hg : g ∈ aggStep A e) :
    (∃ g0 ∈ A, g.column = g0.column ∧ g.issue = g0.issue) ∨
      (g.column = effCol e ∧ g.issue = effIssue e) := by
  simp only [aggStep] at hg
  by_cases hany : (A.any fun g => decide (aggKey g = aggKeyOf e)) = true
  · rw [if_pos hany] at hg
    rcases List.mem_map.1 hg with ⟨g0, hg0, hup⟩
    by_cases h : aggKey g0 = aggKeyOf e
    · rw [if_pos h] at hup
      exact Or.inl ⟨g0, hg0, by rw [← hup]; rfl, by rw [← hup]; rfl⟩
    · rw [if_neg h] at hup
      exact Or.inl ⟨g0, hg0, by rw [hup], by rw [hup]⟩
  · rw [if_neg hany] at hg
    rcases List.mem_append.1 hg with h | h
    · exact Or.inl ⟨g, h, rfl, rfl⟩
    · have hg2 := List.mem_singleton.1 h
      subst hg2
      exact Or.inr ⟨rfl, rfl⟩

/-- Every aggregated group's (column, issue) pair is the normalized pair of
some raw finding. -/
theorem aggregate_pair_from_member (raws : List RawFinding) (g : AggFinding)
    (hg : g ∈ aggregate_deep_issues raws) :
    ∃ e ∈ raws, g.column = effCol e ∧ g.issue = effIssue e := by
  suffices h : ∀ A : List AggFinding, g ∈ raws.foldl aggStep A →
      (∃ g0 ∈ A, g.column = g0.column ∧ g.issue = g0.issue) ∨
      ∃ e ∈ raws, g.column = effCol e ∧ g.issue = effIssue e by
    rw [aggregate_deep_issues] at hg
    rcases h [] hg with ⟨g0, hg0, -⟩ | h2
    · exact absurd hg0 (List.not_mem_nil g0)
    · exact h2
  clear hg
  induction raws with
  | nil => intro A hA; exact Or.inl ⟨g, hA, rfl, rfl⟩
  | cons e p ihp =>
    intro A hA
    rw [List.foldl_cons] at hA
    rcases ihp (aggStep A e) hA with ⟨g0, hg0, hpair⟩ | ⟨e1, he1, hp⟩
    · rcases aggStep_pairs A e g0 hg0 with ⟨g1, hg1, hpair1⟩ | hpe
      · exact Or.inl ⟨g1, hg1, hpair.1.trans hpair1.1, hpair.2.trans hpair1.2⟩
      · exact Or.inr ⟨e, List.mem_cons_self e p,
          hpair.1.trans hpe.1, hpair.2.trans hpe.2⟩
    · exact Or.inr ⟨e1, List.mem_cons_of_mem e he1, hp⟩

/-- Splitting a list around a colon marker is unambiguous when neither
prefix contains a colon. -/
theorem append_colon_inj (a : List Char) :
    ∀ b t1 t2 : List Char, ':' ∉ a → ':' ∉ b →
      a ++ ':' :: t1 = b ++ ':' :: t2 → a = b ∧ t1 = t2 := by
  induction a with
  | nil =>
    intro b t1 t2 _ hb h
    cases b with
    | nil => simpa using h
    | cons y ys =>
      rw [List.nil_append, List.cons_append, List.cons.injEq] at h
      exact absurd (h.1 ▸ List.mem_cons_self y ys) hb
  | cons x xs ih =>
    intro b t1 t2 ha hb h
    cases b with
    | nil =>
      rw [List.nil_append, List.cons_append, List.cons.injEq] at h
      exact absurd (h.1.symm ▸ List.mem_cons_self x xs) ha
    | cons y ys =>
      rw [List.cons_append, List.cons_append, List.cons.injEq] at h
      rcases h with ⟨rfl, h2⟩
      have hr := ih ys t1 t2 (fun hm => ha (List.mem_cons_of_mem _ hm))
        (fun hm => hb (List.mem_cons_of_mem _ hm)) h2
      exact ⟨by rw [hr.1], hr.2⟩

/-- The composite key `col ++ ": " ++ issue` determines the pair as soon as
neither column text contains a colon. -/
theorem aggKey_pair_inj (c1 i1 c2 i2 : String)
    (h1 : ':' ∉ c1.data) (h2 : ':' ∉ c2.data)
    (h : c1 ++ ": " ++ i1 = c2 ++ ": " ++ i2) : c1 = c2 ∧ i1 = i2 := by
  have hd0 := congrArg String.data h
  rw [String.data_append, String.data_append, String.data_append,
    String.data_append] at hd0
  rw [show (": " : String).data = [':', ' '] from rfl] at hd0
  rw [List.append_assoc, List.append_assoc] at hd0
  rw [show ([':', ' '] ++ i1.data : List Char) = ':' :: ' ' :: i1.data from rfl,
    show ([':', ' '] ++ i2.data : List Char) = ':' :: ' ' :: i2.data from rfl] at hd0
  rcases append_colon_inj c1.data c2.data _ _ h1 h2 hd0 with ⟨hc, hi⟩
  rw [List.cons.injEq] at hi
  exact ⟨String.ext hc, String.ext hi.2⟩

/-- Claim C3 (amended): when no normalized column text contains a colon, the
aggregator groups raw findings by the exact normalized (column, issue) pair:
for every pair there is at most one aggregated finding, existing iff some
raw finding carries the pair; its count is the number of such findings and
its rows are the first `min(5, count)` extracted row references in insertion
order.  The trailing conjuncts state the normalization: a nonempty `column`
key, a nonempty `issue` key and a nonzero `row_index` pass through
untouched. -/
theorem aggregate_groups_by_pair (raws : List RawFinding)
    (hcol : ∀ e ∈ raws, ':' ∉ (effCol e).data) (cn iss : String) :
    ((aggregate_deep_issues raws).filter
        (fun g => decide (g.column = cn ∧ g.issue = iss)) =
      (if raws.filter (fun e => decide (effCol e = cn ∧ effIssue e = iss)) = []
       then []
       else [⟨cn, iss,
          (raws.filter (fun e => decide (effCol e = cn ∧ effIssue e = iss))).length,
          ((raws.filter (fun e => decide (effCol e = cn ∧ effIssue e = iss))).map
            rowRef).take 5, "Logic Paradox"⟩])) ∧
    (∀ (e : RawFinding) (c : String), e.column = some c → c ≠ "" → effCol e = c) ∧
    (∀ (e : RawFinding) (i : String), e.issue = some i → i ≠ "" → effIssue e = i) ∧
    (∀ (e : RawFinding) (n : Int), e.row_index = some n → n ≠ 0 →
      rowRef e = RowRef.idx n) := by
  refine ⟨?_, ?_, ?_, ?_⟩
  · by_cases hex : ∃ e ∈ raws, effCol e = cn ∧ effIssue e = iss
    · rcases hex with ⟨e1, he1, hp1⟩
      have hcn : ':' ∉ cn.data := hp1.1 ▸ hcol e1 he1
      have hfeq : raws.filter (fun e => decide (effCol e = cn ∧ effIssue e = iss))
          = raws.filter (fun e => decide (aggKeyOf e = cn ++ ": " ++ iss)) := by
        apply List.filter_congr
        intro e he
        rw [decide_eq_decide]
        constructor
        · rintro ⟨hc, hi⟩
          rw [aggKeyOf, hc, hi]
        · intro hkey
          exact aggKey_pair_inj (effCol e) (effIssue e) cn iss
            (hcol e he) hcn hkey
      have hgeq : (aggregate_deep_issues raws).filter
            (fun g => decide (g.column = cn ∧ g.issue = iss))
          = (aggregate_deep_issues raws).filter
            (fun g => decide (aggKey g = cn ++ ": " ++ iss)) := by
        apply List.filter_congr
        intro g hg
        rw [decide_eq_decide]
        rcases aggregate_pair_from_member raws g hg with ⟨eg, heg, hgc, hgi⟩
        constructor
        · rintro ⟨hc, hi⟩
          rw [aggKey, hc, hi]
        · intro hkey
          exact aggKey_pair_inj g.column g.issue cn iss
            (by rw [hgc]; exact hcol eg heg) hcn hkey
      rw [hgeq, aggregate_filter_key raws (cn ++ ": " ++ iss), ← hfeq]
      have hne : raws.filter (fun e => decide (effCol e = cn ∧ effIssue e = iss))
          ≠ [] := by
        intro h0
        have : e1 ∈ raws.filter (fun e => decide (effCol e = cn ∧ effIssue e = iss)) :=
          List.mem_filter.2 ⟨he1, by rw [decide_eq_true_eq]; exact hp1⟩
        rw [h0] at this
        exact List.not_mem_nil e1 this
      rw [if_neg hne]
      cases hpf : raws.filter (fun e => decide (effCol e = cn ∧ effIssue e = iss)) with
      | nil => exact absurd hpf hne
      | cons e0 rest =>
        have he0 : effCol e0 = cn ∧ effIssue e0 = iss := by
          have hmem : e0 ∈ raws.filter
              (fun e => decide (effCol e = cn ∧ effIssue e = iss)) := by
            rw [hpf]; exact List.mem_cons_self e0 rest
          have := (List.mem_filter.1 hmem).2
          rwa [decide_eq_true_eq] at this
        simp only [he0.1, he0.2]
    · have hfnil : raws.filter (fun e => decide (effCol e = cn ∧ effIssue e = iss))
          = [] := by
        apply List.filter_eq_nil_iff.2
        intro e he
        rw [decide_eq_true_eq]
        intro hp
        exact hex ⟨e, he, hp⟩
      rw [hfnil, if_pos rfl]
      apply List.filter_eq_nil_iff.2
      intro g hg
      rw [decide_eq_true_eq]
      intro hp
      rcases aggregate_pair_from_member raws g hg with ⟨eg, heg, hgc, hgi⟩
      exact hex ⟨eg, heg, by rw [← hgc]; exact hp.1, by rw [← hgi]; exact hp.2⟩
  · intro e c hc hne
    rw [effCol, orTruthyStr.eq_def, hc]
    simp [hne]
  · intro e i hi hne
    rw [effIssue, orTruthyStr.eq_def, hi]
    simp [hne]
  · intro e n hn hne
    rw [rowRef.eq_def, hn]
    simp [hne]

/-- Claim C3 counterexample, exhibiting every divergence from exact-pair
grouping that the amendment records.  (1) The composite dictionary key
`f"{col}: {issue}"` collides the distinct exact pairs ("a: b", "c") and
("a", "b: c") into one group of count 2, though only one raw finding carries
either exact pair.  (2) The falsy column fallback merges the distinct exact
columns "" and "Unknown" into one group of count 2, though only one raw
finding has the exact column "Unknown".  (3) The falsy issue fallback
likewise merges the distinct exact issues "" and "Logic Error".  (4) A
finding at row index 0 is recorded as the placeholder reference, not as the
row index 0, so its group's rows list is not the claimed list of the first
min(5, count) row indices. -/
theorem aggregate_exact_pair_counterexample :
    ((aggregate_deep_issues rawsCollision).map
        (fun g => (g.column, g.issue, g.count)) = [("a: b", "c", 2)] ∧
     (rawsCollision.filter
        (fun e => decide (e.column = some "a: b" ∧ e.issue = some "c"))).length
       = 1 ∧
     (rawsCollision.filter
        (fun e => decide (e.column = some "a" ∧ e.issue = some "b: c"))).length
       = 1) ∧
    ((aggregate_deep_issues rawsEmptyCol).map
        (fun g => (g.column, g.issue, g.count)) = [("Unknown", "imp", 2)] ∧
     (rawsEmptyCol.filter (fun e => decide (e.column = some "Unknown"))).length
       = 1) ∧
    ((aggregate_deep_issues rawsEmptyIssue).map
        (fun g => (g.column, g.issue, g.count)) = [("Age", "Logic Error", 2)] ∧
     (rawsEmptyIssue.filter
        (fun e => decide (e.issue = some "Logic Error"))).length = 1) ∧
    ((aggregate_deep_issues [rawRowZero]).map (fun g => g.rows)
        = [[RowRef.unk]] ∧
     RowRef.unk ≠ RowRef.idx 0) :=
  ⟨⟨rfl, rfl, rfl⟩, ⟨rfl, rfl⟩, ⟨rfl, rfl⟩, rfl, by decide⟩

/-- Witness for C3: eight raw findings sharing the pair ("Age", "impossible")
at rows 1..8 aggregate to a single finding with count 8 and exactly the
first five row indices. -/
theorem aggregate_groups_by_pair_witness :
    (aggregate_deep_issues rawsEight).filter
        (fun g => decide (g.column = "Age" ∧ g.issue = "impossible"))
      = [⟨"Age", "impossible", 8,
          [.idx 1, .idx 2, .idx 3, .idx 4, .idx 5], "Logic Paradox"⟩] := by
  have h := (aggregate_groups_by_pair rawsEight (by decide) "Age" "impossible").1
  rw [h, if_neg (by decide)]
  rfl

/-!  # Claim C4: the typo-detection similarity band -/

/-- The fold behind `process.extractOne`, started from a candidate whose
stored score is its similarity: the result keeps that invariant, dominates
the starting score and every scanned candidate, and returns a choice from
the scanned list or the start. -/
theorem bestMatchFold_some (r : String) (l : List String) :
    ∀ (bc : String) (bs : ℚ), bs = fuzzRatio r bc →
      ∃ bm score,
        l.foldl (fun best c =>
          match best with
          | none => some (c, fuzzRatio r c)
          | some (bc, bs) =>
            if fuzzRatio r c > bs then some (c, fuzzRatio r c) else some (bc, bs))
          (some (bc, bs)) = some (bm, score) ∧
        score = fuzzRatio r bm ∧ (bm = bc ∨ bm ∈ l) ∧ bs ≤ score ∧
        ∀ c ∈ l, fuzzRatio r c ≤ score := by
  induction l with
  | nil =>
    intro bc bs hbs
    exact ⟨bc, bs, rfl, hbs, Or.inl rfl, le_refl bs, by simp⟩
  | cons c l ih =>
    intro bc bs hbs
    rw [List.foldl_cons]
    by_cases hgt : fuzzRatio r c > bs
    · rcases ih c (fuzzRatio r c) rfl with ⟨bm, score, hfold, hsc, hmem, hle, hall⟩
      refine ⟨bm, score, ?_, hsc, ?_, le_of_lt (lt_of_lt_of_le hgt hle), ?_⟩
      · rw [← hfold]
        congr 1
        simp [hgt]
      · rcases hmem with rfl | h
        · exact Or.inr (List.mem_cons_self bm l)
        · exact Or.inr (List.mem_cons_of_mem c h)
      · intro x hx
        rcases List.mem_cons.1 hx with rfl | hxl
        · exact hle
        · exact hall x hxl
    · rcases ih bc bs hbs with ⟨bm, score, hfold, hsc, hmem, hle, hall⟩
      refine ⟨bm, score, ?_, hsc, ?_, hle, ?_⟩
      · rw [← hfold]
        congr 1
        simp [hgt]
      · rcases hmem with rfl | h
        · exact Or.inl rfl
        · exact Or.inr (List.mem_cons_of_mem c h)
      · intro x hx
        rcases List.mem_cons.1 hx with rfl | hxl
        · exact le_trans (not_lt.1 hgt) hle
        · exact hall x hxl

/-- `extractOne`'s contract: on a nonempty candidate list it returns a
member together with its similarity score, maximal over the list. -/
theorem bestMatch_spec (r : String) (common : List String) (bm : String) (score : ℚ)
    (h : bestMatch r common = some (bm, score)) :
    bm ∈ common ∧ score = fuzzRatio r bm ∧ ∀ c ∈ common, fuzzRatio r c ≤ score := by
  cases common with
  | nil => exact absurd h (by rw [bestMatch]; simp)
  | cons c l =>
    rcases bestMatchFold_some r l c (fuzzRatio r c) rfl with
      ⟨bm2, score2, hfold, hsc, hmem, hle, hall⟩
    have h2 : l.foldl (fun best c =>
        match best with
        | none => some (c, fuzzRatio r c)
        | some (bc, bs) =>
          if fuzzRatio r c > bs then some (c, fuzzRatio r c) else some (bc, bs))
        (some (c, fuzzRatio r c)) = some (bm, score) := h
    rw [hfold] at h2
    rw [Option.some_inj, Prod.mk.injEq] at h2
    rcases h2 with ⟨rfl, rfl⟩
    refine ⟨?_, hsc, ?_⟩
    · rcases hmem with rfl | hm
      · exact List.mem_cons_self _ _
      · exact List.mem_cons_of_mem c hm
    · intro x hx
      rcases List.mem_cons.1 hx with rfl | hxl
      · exact hle
      · exact hall x hxl

/-- Unfolding `typoCheck` when the rare value is not blank and a best match
exists. -/
theorem typoCheck_some_eq (common : List String) (r bm : String) (score : ℚ)
    (hblank : pyStrip r ≠ "") (hbm : bestMatch r common = some (bm, score)) :
    typoCheck common r
      = if 85 ≤ score ∧ score < 100 then some (r, bm) else none := by
  rw [typoCheck, if_neg hblank, hbm]

/-- Claim C4 (amended): under the cardinality gate, a rare value `r` that is
not blank (empty/whitespace-only) is reported as a typo iff its best
`fuzz.ratio` match among the common values scores in the band [85, 100) —
inclusive 85, exclusive 100; a reported pair's score is the true similarity
of the reported best match, is maximal over the common values and is < 100.
Blank rare values are skipped by the scanner (the loop's
`if not r.strip(): continue`), which is the correction to the claim's
unconditional "if and only if"; the rarity cutoff is the source's
`max(1, 1% of the row count)`. -/
theorem typo_band_contract (cells : List (Option String)) (r : String)
    (hgate : 2 < (dedupFirst cells).length ∧ (dedupFirst cells).length < 500)
    (hr : r ∈ rareOf cells) (hblank : pyStrip r ≠ "") :
    ((∃ bm, (r, bm) ∈ scan_typos_column cells) ↔
      (∃ bm score, bestMatch r (commonOf cells) = some (bm, score) ∧
        85 ≤ score ∧ score < 100)) ∧
    (∀ bm, (r, bm) ∈ scan_typos_column cells →
      bestMatch r (commonOf cells) = some (bm, fuzzRatio r bm) ∧
      85 ≤ fuzzRatio r bm ∧ fuzzRatio r bm < 100 ∧
      ∀ c ∈ commonOf cells, fuzzRatio r c ≤ fuzzRatio r bm) := by
  have hscan : scan_typos_column cells
      = (rareOf cells).filterMap (typoCheck (commonOf cells)) := by
    rw [scan_typos_column, if_pos hgate]
  have hfwd : ∀ bm, (r, bm) ∈ scan_typos_column cells →
      ∃ score, bestMatch r (commonOf cells) = some (bm, score) ∧
        85 ≤ score ∧ score < 100 := by
    intro bm hmem
    rw [hscan, List.mem_filterMap] at hmem
    rcases hmem with ⟨a, -, ha⟩
    by_cases hb : pyStrip a = ""
    · rw [typoCheck, if_pos hb] at ha
      exact Option.noConfusion ha
    · rcases hbm : bestMatch a (commonOf cells) with - | p
      · rw [typoCheck, if_neg hb, hbm] at ha
        exact Option.noConfusion ha
      · rcases p with ⟨bm0, score0⟩
        rw [typoCheck_some_eq (commonOf cells) a bm0 score0 hb hbm] at ha
        by_cases hband : 85 ≤ score0 ∧ score0 < 100
        · rw [if_pos hband, Option.some_inj, Prod.mk.injEq] at ha
          rcases ha with ⟨rfl, rfl⟩
          exact ⟨score0, hbm, hband⟩
        · rw [if_neg hband] at ha
          exact Option.noConfusion ha
  constructor
  · constructor
    · rintro ⟨bm, hmem⟩
      rcases hfwd bm hmem with ⟨score, hbm, hband⟩
      exact ⟨bm, score, hbm, hband⟩
    · rintro ⟨bm, score, hbm, hband⟩
      refine ⟨bm, ?_⟩
      rw [hscan, List.mem_filterMap]
      refine ⟨r, hr, ?_⟩
      rw [typoCheck_some_eq (commonOf cells) r bm score hblank hbm, if_pos hband]
  · intro bm hmem
    rcases hfwd bm hmem with ⟨score, hbm, hband⟩
    rcases bestMatch_spec r (commonOf cells) bm score hbm with ⟨-, hsc, hall⟩
    rw [hsc] at hbm hband
    exact ⟨hbm, hband.1, hband.2, fun c hc => hsc ▸ hall c hc⟩

set_option maxRecDepth 8000 in
/-- Claim C4 counterexample, exhibiting both divergences from the claim.
(1) Blank skip: in a 200-row column the whitespace-only rare value of 9
spaces scores exactly 90 against the common 11-space value — in the claimed
band [85, 100) — yet the scanner reports no typo for it, because blank rare
values are skipped.  (2) Rarity cutoff: the code's cutoff is
`max(1, total_rows * 0.01)`, not the claimed 1% of the row count — in the
10-row column `exCells85` the 17-character value has frequency 1, which is
strictly above 1% of the rows (so the claim's split would make it common and
never reported), yet the scanner classifies it rare, not common, and reports
it. -/
theorem typo_blank_skip_counterexample :
    ((2 < (dedupFirst exCellsBlank).length ∧ (dedupFirst exCellsBlank).length < 500) ∧
     "         " ∈ rareOf exCellsBlank ∧
     bestMatch "         " (commonOf exCellsBlank) = some ("           ", 90) ∧
     ((85 : ℚ) ≤ 90 ∧ (90 : ℚ) < 100) ∧
     scan_typos_column exCellsBlank = []) ∧
    (("abcdefghijklmnopq", 1) ∈ valueCounts (exCells85.filterMap id) ∧
     (1 : ℚ) > (exCells85.length : ℚ) / 100 ∧
     "abcdefghijklmnopq" ∈ rareOf exCells85 ∧
     "abcdefghijklmnopq" ∉ commonOf exCells85 ∧
     ("abcdefghijklmnopq", "abcdefghijklmnopqrstuvw")
       ∈ scan_typos_column exCells85) := by
  exact ⟨⟨by decide, by decide, by decide, by decide, by decide⟩,
    by decide, by decide, by decide, by decide, by decide⟩

/-- Witness for C4: a rare 17-character value whose best match among common
values is a 23-character extension scores exactly 85 and is reported. -/
theorem typo_band_contract_witness :
    (∃ bm, ("abcdefghijklmnopq", bm) ∈ scan_typos_column exCells85) ∧
    scan_typos_column exCells85
      = [("abcdefghijklmnopq", "abcdefghijklmnopqrstuvw")] ∧
    fuzzRatio "abcdefghijklmnopq" "abcdefghijklmnopqrstuvw" = 85 := by
  have h := (typo_band_contract exCells85 "abcdefghijklmnopq"
    ⟨by decide, by decide⟩ (by decide) (by decide)).1
  exact ⟨h.mpr ⟨"abcdefghijklmnopqrstuvw", 85, by decide, by decide, by decide⟩,
    by decide, by decide⟩
